import Mathlib

/-!
Verification of the Pintos-derived inode layer (`src/filesys/inode.c`).

The disk is a map from sector numbers to sector contents; a sector stores
512 bytes (indices `≥ 512` of a stored sector are normalised to `0`).
Buffers are maps from byte indices to byte values.  `off_t` values are
modelled as `Int` with C truncated division (`Int.tdiv` / `Int.tmod`);
`disk_sector_t` arithmetic is carried out modulo `2 ^ 32`.
The C ternary `a < b ? a : b` is written `min a b` (the two agree on all
inputs).  `malloc`/`calloc` success and the free-map allocator are passed
in as explicit parameters, since they are external to this module.
-/

abbrev Buf : Type := Nat → Nat

abbrev Disk : Type := Nat → Buf

/-- Magic number identifying an inode (`INODE_MAGIC`). -/
def INODE_MAGIC : Nat := 0x494e4f44

/-- On-disk inode, `struct inode_disk`: first data sector, file size in
bytes, magic number, and the 125 unused (zero) words of padding. -/
structure inode_disk where
  start : Nat
  length : Int
  magic : Nat
  unused : Nat → Nat

/-- One disk-device access performed by the read/write path. -/
inductive Access where
  | read (sector : Nat)
  | write (sector : Nat)
deriving DecidableEq

/-- Effect of `disk_write (filesys_disk, idx, src + srcOfs)`: the sector
`idx` now holds the 512 bytes `src srcOfs, …, src (srcOfs+511)`. -/
def devWrite (d : Disk) (idx : Nat) (src : Buf) (srcOfs : Nat) : Disk :=
  fun s => if s = idx then (fun i => if i < 512 then src (srcOfs + i) else 0) else d s

/-- Effect of `disk_read (filesys_disk, idx, dst)`: the 512 bytes of sector `idx`. -/
def devRead (d : Disk) (idx : Nat) : Buf := d idx

/-- `memcpy (dst + dstOfs, src + srcOfs, n)` on byte buffers. -/
def copyRange (dst : Buf) (dstOfs : Nat) (src : Buf) (srcOfs n : Nat) : Buf :=
  fun i => if dstOfs ≤ i ∧ i < dstOfs + n then src (srcOfs + (i - dstOfs)) else dst i

/-- An all-zero buffer (`memset (…, 0, …)`, or the static `zeros` sector). -/
def zeroBuf : Buf := fun _ => 0

/-- `bytes_to_sectors`: number of sectors for an inode `size` bytes long,
`DIV_ROUND_UP (size, DISK_SECTOR_SIZE)`. -/
def bytes_to_sectors (size : Int) : Nat := ((size + 512 - 1).tdiv 512).toNat

/-- `byte_to_sector`: the disk sector containing byte offset `pos` of the
file described by `data`, or `(disk_sector_t) -1 = 2^32 - 1` if `pos` is
at or past end of file. -/
def byte_to_sector (data : inode_disk) (pos : Int) : Nat :=
  if pos < data.length then (((data.start : Int) + pos.tdiv 512) % (2 ^ 32 : Int)).toNat
  else 2 ^ 32 - 1

/-- Condition under which `inode_write_at` reads the target sector into the
bounce buffer before modifying it: `sector_ofs > 0 || chunk_size < sector_left`
(otherwise the bounce buffer is zero-filled by `memset`). -/
def write_needs_read (sector_ofs chunk_size sector_left : Int) : Bool :=
  sector_ofs > 0 || chunk_size < sector_left

/-- The loop of `inode_read_at`.  State: remaining `size`, current
`offset`, `bytes_read` so far, whether the bounce buffer has already been
allocated, and whether `malloc` would succeed.  Returns the final
`bytes_read`, the caller's buffer, and the trace of device accesses. -/
def inode_read_loop (data : inode_disk) (d : Disk) (buffer : Buf)
    (size offset bytes_read : Int) (hasBounce allocOk : Bool) :
    Int × Buf × List Access :=
  if _h : 0 < size then
    let sector_idx := byte_to_sector data offset
    let sector_ofs := offset.tmod 512
    let inode_left := data.length - offset
    let sector_left := 512 - sector_ofs
    let min_left := min inode_left sector_left
    let chunk_size := min size min_left
    if _hc : 0 < chunk_size then
      if sector_ofs = 0 ∧ chunk_size = 512 then
        let buffer' := copyRange buffer bytes_read.toNat (devRead d sector_idx) 0 512
        let rest := inode_read_loop data d buffer' (size - chunk_size)
          (offset + chunk_size) (bytes_read + chunk_size) hasBounce allocOk
        (rest.1, rest.2.1, Access.read sector_idx :: rest.2.2)
      else if hasBounce || allocOk then
        let buffer' := copyRange buffer bytes_read.toNat (devRead d sector_idx)
          sector_ofs.toNat chunk_size.toNat
        let rest := inode_read_loop data d buffer' (size - chunk_size)
          (offset + chunk_size) (bytes_read + chunk_size) true allocOk
        (rest.1, rest.2.1, Access.read sector_idx :: rest.2.2)
      else (bytes_read, buffer, [])
    else (bytes_read, buffer, [])
  else (bytes_read, buffer, [])
termination_by size.toNat
decreasing_by all_goals omega

/-- `inode_read_at (inode, buffer, size, offset)`: reads `size` bytes from
the file into `buffer`, starting at `offset`; `allocOk` tells whether a
`malloc` of the bounce buffer would succeed. -/
def inode_read_at (data : inode_disk) (d : Disk) (buffer : Buf)
    (size offset : Int) (allocOk : Bool) : Int × Buf × List Access :=
  inode_read_loop data d buffer size offset 0 false allocOk

/-- The loop of `inode_write_at`.  Same iteration structure as the read
loop; returns the final `bytes_written`, the disk, and the access trace. -/
def inode_write_loop (data : inode_disk) (d : Disk) (buffer : Buf)
    (size offset bytes_written : Int) (hasBounce allocOk : Bool) :
    Int × Disk × List Access :=
  if _h : 0 < size then
    let sector_idx := byte_to_sector data offset
    let sector_ofs := offset.tmod 512
    let inode_left := data.length - offset
    let sector_left := 512 - sector_ofs
    let min_left := min inode_left sector_left
    let chunk_size := min size min_left
    if _hc : 0 < chunk_size then
      if sector_ofs = 0 ∧ chunk_size = 512 then
        let d' := devWrite d sector_idx buffer bytes_written.toNat
        let rest := inode_write_loop data d' buffer (size - chunk_size)
          (offset + chunk_size) (bytes_written + chunk_size) hasBounce allocOk
        (rest.1, rest.2.1, Access.write sector_idx :: rest.2.2)
      else if hasBounce || allocOk then
        let bounce0 := if write_needs_read sector_ofs chunk_size sector_left
          then devRead d sector_idx else zeroBuf
        let bounce := copyRange bounce0 sector_ofs.toNat buffer bytes_written.toNat
          chunk_size.toNat
        let d' := devWrite d sector_idx bounce 0
        let rest := inode_write_loop data d' buffer (size - chunk_size)
          (offset + chunk_size) (bytes_written + chunk_size) true allocOk
        (rest.1, rest.2.1,
          (if write_needs_read sector_ofs chunk_size sector_left
            then [Access.read sector_idx, Access.write sector_idx]
            else [Access.write sector_idx]) ++ rest.2.2)
      else (bytes_written, d, [])
    else (bytes_written, d, [])
  else (bytes_written, d, [])
termination_by size.toNat
decreasing_by all_goals omega

/-- `inode_write_at (inode, buffer, size, offset)`: writes `size` bytes
from `buffer` into the file starting at `offset` (no growth past the
current length). -/
def inode_write_at (data : inode_disk) (d : Disk) (buffer : Buf)
    (size offset : Int) (allocOk : Bool) : Int × Disk × List Access :=
  inode_write_loop data d buffer size offset 0 false allocOk

/-- Outcome of a C call: a normal result, a failed `ASSERT` (kernel
panic), or undefined behaviour (e.g. dereferencing a null or dangling
pointer where the source performs no check). -/
inductive CResult (α : Type) where
  | ok (val : α)
  | assertFail
  | ub

/-- The zero-filling loop of `inode_create`: writes the static all-zero
sector to data sectors `start, start+1, …, start+n-1` (in that order). -/
def zeroFill (d : Disk) (start : Nat) : Nat → Disk
  | 0 => d
  | n + 1 => devWrite (zeroFill d start n) (start + n) zeroBuf 0

/-- Byte `i` of the on-disk image of a `struct inode_disk` (x86 little
endian, fields at offsets 0 = `start`, 4 = `length`, 8 = `magic`,
12…511 = `unused[125]`). -/
def inode_disk_bytes (di : inode_disk) : Buf :=
  fun i =>
    if i < 4 then di.start % 2 ^ 32 / 256 ^ i % 256
    else if i < 8 then (di.length % (2 ^ 32 : Int)).toNat / 256 ^ (i - 4) % 256
    else if i < 12 then di.magic % 2 ^ 32 / 256 ^ (i - 8) % 256
    else if i < 512 then di.unused ((i - 12) / 4) % 2 ^ 32 / 256 ^ ((i - 12) % 4) % 256
    else 0

/-- `inode_create (sector, length)`: builds the descriptor (zeroed by
`calloc`, then `length` and `magic` are set), asks the free map for
`bytes_to_sectors length` sectors, and on success writes the descriptor
to `sector` followed by a zero sector to every data sector.  `alloc`
models `free_map_allocate`, `callocOk` models `calloc` success. -/
def inode_create (alloc : Nat → Option Nat) (callocOk : Bool) (d : Disk)
    (sector : Nat) (length : Int) : CResult (Bool × Disk) :=
  if length < 0 then .assertFail
  else if callocOk then
    let sectors := bytes_to_sectors length
    match alloc sectors with
    | some start =>
      let di : inode_disk :=
        { start := start, length := length, magic := INODE_MAGIC, unused := fun _ => 0 }
      let d1 := devWrite d sector (inode_disk_bytes di) 0
      .ok (true, zeroFill d1 start sectors)
    | none => .ok (false, d)
  else .ok (false, d)

/-- Little-endian decoding of a 32-bit field at byte offset `ofs`. -/
def decode_u32 (s : Buf) (ofs : Nat) : Nat :=
  s ofs + 256 * s (ofs + 1) + 256 ^ 2 * s (ofs + 2) + 256 ^ 3 * s (ofs + 3)

/-- Little-endian decoding of a signed 32-bit `off_t` at byte offset `ofs`. -/
def decode_off_t (s : Buf) (ofs : Nat) : Int :=
  let u := decode_u32 s ofs
  if u < 2 ^ 31 then (u : Int) else (u : Int) - 2 ^ 32

/-- Effect of `disk_read (filesys_disk, sec, &inode->data)`: the cached
`struct inode_disk` as read back from sector `sec`. -/
def read_inode_disk (d : Disk) (sec : Nat) : inode_disk :=
  { start := decode_u32 (d sec) 0
    length := decode_off_t (d sec) 4
    magic := decode_u32 (d sec) 8
    unused := fun w => decode_u32 (d sec) (12 + 4 * w) }

/-- In-memory `struct inode`.  Pointer identity is modelled by `id`.  The
two `*_lock_inited` flags record whether `lock_init` has been run by this
module on `inode_lock` resp. `dir_lock` (memory from `malloc` starts
uninitialised; `inode_open` runs `lock_init` only on `inode_lock`). -/
structure inode where
  id : Nat
  sector : Nat
  open_cnt : Int
  removed : Bool
  data : inode_disk
  inode_lock_inited : Bool
  dir_lock_inited : Bool

/-- Whole-module state: the `open_inodes` list, a fresh-id counter
(modelling pointer freshness), the disk, and the ranges handed back to
`free_map_release` so far. -/
structure FsState where
  open_inodes : List inode
  next_id : Nat
  disk : Disk
  released : List (Nat × Nat)

/-- `inode_init`: empty open-inodes list (the disk is the ambient device). -/
def inode_init (d : Disk) : FsState :=
  { open_inodes := [], next_id := 0, disk := d, released := [] }

/-- The new inode built by `inode_open` when `sector` was not yet open:
`open_cnt = 1`, not removed, data read from disk, `inode_lock`
initialised; `dir_lock` is left untouched (no `lock_init` on it). -/
def fresh_inode (st : FsState) (sector : Nat) : inode :=
  { id := st.next_id, sector := sector, open_cnt := 1, removed := false,
    data := read_inode_disk st.disk sector,
    inode_lock_inited := true, dir_lock_inited := false }

/-- `inode_reopen` applied to the inode with identity `id` (`open_cnt++`). -/
def bump_open_cnt (id : Nat) (j : inode) : inode :=
  if j.id = id then { j with open_cnt := j.open_cnt + 1 } else j

/-- `inode_open (sector)`: scan `open_inodes` for an inode with this
sector; if found, `inode_reopen` it and return it; otherwise `malloc` a
new inode (`mallocOk`), push it on the front of the list, initialise it
and return it (`none` models the NULL return on malloc failure). -/
def inode_open (st : FsState) (sector : Nat) (mallocOk : Bool) : FsState × Option Nat :=
  match st.open_inodes.find? (fun i => i.sector == sector) with
  | some i =>
    ({ st with open_inodes := st.open_inodes.map (bump_open_cnt i.id) }, some i.id)
  | none =>
    if mallocOk then
      ({ st with open_inodes := fresh_inode st sector :: st.open_inodes,
                 next_id := st.next_id + 1 }, some st.next_id)
    else (st, none)

/-- `inode_reopen (inode)`: increments `open_cnt`; a null argument is
checked for and ignored. -/
def inode_reopen (st : FsState) (h : Option Nat) : FsState :=
  match h with
  | none => st
  | some id => { st with open_inodes := st.open_inodes.map (bump_open_cnt id) }

/-- Sectors released by the last `inode_close` of an inode: the
descriptor sector and the data sectors, but only if the inode was
`removed`. -/
def release_on_close (st : FsState) (i : inode) : List (Nat × Nat) :=
  if i.removed then
    st.released ++ [(i.sector, 1), (i.data.start, bytes_to_sectors i.data.length)]
  else st.released

/-- `inode_close (inode)`: null is ignored; otherwise decrement
`open_cnt`, and if it reaches zero remove the inode from the list, free
its blocks when `removed`, and free the inode. -/
def inode_close (st : FsState) (h : Option Nat) : FsState :=
  match h with
  | none => st
  | some id =>
    match st.open_inodes.find? (fun i => i.id == id) with
    | none => st
    | some i =>
      if i.open_cnt - 1 = 0 then
        { st with open_inodes := st.open_inodes.filter (fun j => j.id ≠ id),
                  released := release_on_close st i }
      else
        let dec := fun (j : inode) =>
          if j.id = id then { j with open_cnt := j.open_cnt - 1 } else j
        { st with open_inodes := st.open_inodes.map dec }

/-- `inode->removed = true` applied to the inode with identity `id`. -/
def mark_removed (id : Nat) (j : inode) : inode :=
  if j.id = id then { j with removed := true } else j

/-- `inode_remove (inode)`: `ASSERT (inode != NULL)`, then mark the inode
to be deleted when the last opener closes it. -/
def inode_remove (st : FsState) (h : Option Nat) : CResult FsState :=
  match h with
  | none => .assertFail
  | some id => .ok { st with open_inodes := st.open_inodes.map (mark_removed id) }

/-- `inode_length (inode)`: returns `inode->data.length`.  The source
performs no null check here, so a null (or dangling) handle is a plain
bad dereference, not an assertion. -/
def inode_length (st : FsState) (h : Option Nat) : CResult Int :=
  match h with
  | none => .ub
  | some id =>
    match st.open_inodes.find? (fun i => i.id == id) with
    | none => .ub
    | some i => .ok i.data.length

/-- `lock_init (&i->dir_lock)` applied to the inode with identity `id`. -/
def set_dir_inited (id : Nat) (j : inode) : inode :=
  if j.id = id then { j with dir_lock_inited := true } else j

/-- `inode_dir_init (i)`: initialises the directory-serialisation lock of
a non-null inode; null is checked for and ignored. -/
def inode_dir_init (st : FsState) (h : Option Nat) : FsState :=
  match h with
  | none => st
  | some id => { st with open_inodes := st.open_inodes.map (set_dir_inited id) }

/-- One module-level operation, for reasoning about whole call sequences. -/
inductive Op where
  | op_open (sector : Nat) (mallocOk : Bool)
  | op_reopen (h : Option Nat)
  | op_close (h : Option Nat)
  | op_remove (h : Option Nat)
  | op_dir_init (h : Option Nat)

/-- Apply one operation to the module state (a failed assertion or
undefined behaviour leaves the state unchanged here; the invariants below
therefore cover arbitrary call sequences). -/
def applyOp (st : FsState) : Op → FsState
  | .op_open s m => (inode_open st s m).1
  | .op_reopen h => inode_reopen st h
  | .op_close h => inode_close st h
  | .op_remove h =>
    match inode_remove st h with
    | .ok st' => st'
    | _ => st
  | .op_dir_init h => inode_dir_init st h

/-- Apply a sequence of operations, oldest first. -/
def applyOps (st : FsState) (ops : List Op) : FsState := ops.foldl applyOp st

/-- An all-zero disk, used as a concrete device in witnesses. -/
def diskZero : Disk := fun _ _ => 0

/-- Sector number touched by a device access. -/
def accessSector : Access → Nat
  | .read s => s
  | .write s => s

/-! ### Arithmetic and device helper lemmas -/

lemma tdiv_cast512 (a : Nat) : (a : Int).tdiv 512 = ((a / 512 : Nat) : Int) := rfl

lemma tmod_cast512 (a : Nat) : (a : Int).tmod 512 = ((a % 512 : Nat) : Int) := rfl

lemma toNat_cast (n : Nat) : ((n : Int)).toNat = n := rfl

lemma copyRange_hit (dst : Buf) (dstOfs : Nat) (src : Buf) (srcOfs n i : Nat)
    (h1 : dstOfs ≤ i) (h2 : i < dstOfs + n) :
    copyRange dst dstOfs src srcOfs n i = src (srcOfs + (i - dstOfs)) := by
  unfold copyRange
  rw [if_pos ⟨h1, h2⟩]

lemma copyRange_miss (dst : Buf) (dstOfs : Nat) (src : Buf) (srcOfs n i : Nat)
    (h : i < dstOfs ∨ dstOfs + n ≤ i) :
    copyRange dst dstOfs src srcOfs n i = dst i := by
  unfold copyRange
  rw [if_neg]
  omega

lemma devWrite_self (d : Disk) (idx : Nat) (src : Buf) (srcOfs i : Nat) (h : i < 512) :
    devWrite d idx src srcOfs idx i = src (srcOfs + i) := by
  unfold devWrite
  rw [if_pos rfl, if_pos h]

lemma devWrite_self_hi (d : Disk) (idx : Nat) (src : Buf) (srcOfs i : Nat) (h : ¬ i < 512) :
    devWrite d idx src srcOfs idx i = 0 := by
  unfold devWrite
  rw [if_pos rfl, if_neg h]

lemma devWrite_other (d : Disk) (idx : Nat) (src : Buf) (srcOfs s : Nat) (h : s ≠ idx) :
    devWrite d idx src srcOfs s = d s := by
  unfold devWrite
  rw [if_neg h]

lemma zeroFill_in (d : Disk) (start n j i : Nat) (h : j < n) :
    zeroFill d start n (start + j) i = 0 := by
  induction n with
  | zero => omega
  | succ n IH =>
    show devWrite (zeroFill d start n) (start + n) zeroBuf 0 (start + j) i = 0
    by_cases hj : j = n
    · subst hj
      by_cases hi : i < 512
      · rw [devWrite_self _ _ _ _ _ hi]
        rfl
      · rw [devWrite_self_hi _ _ _ _ _ hi]
    · rw [devWrite_other]
      · exact IH (by omega)
      · omega

lemma zeroFill_out (d : Disk) (start n s : Nat) (h : ∀ j, j < n → start + j ≠ s) :
    zeroFill d start n s = d s := by
  induction n with
  | zero => rfl
  | succ n IH =>
    show devWrite (zeroFill d start n) (start + n) zeroBuf 0 s = _
    rw [devWrite_other]
    · exact IH (fun j hj => h j (by omega))
    · exact fun hs => h n (by omega) hs.symm

lemma bytes_to_sectors_toNat (L : Int) (h : 0 ≤ L) :
    bytes_to_sectors L = (L.toNat + 511) / 512 := by
  obtain ⟨n, rfl⟩ : ∃ n : Nat, L = (n : Int) := ⟨L.toNat, by omega⟩
  unfold bytes_to_sectors
  have h1 : ((n : Int) + 512 - 1) = ((n + 511 : Nat) : Int) := by push_cast; ring
  rw [h1, tdiv_cast512, toNat_cast, toNat_cast]

lemma byte_to_sector_eq (data : inode_disk) (o : Nat)
    (ho : ((o : Nat) : Int) < data.length)
    (hw : data.start + bytes_to_sectors data.length ≤ 2 ^ 32) :
    byte_to_sector data (o : Int) = data.start + o / 512 := by
  unfold byte_to_sector
  rw [if_pos ho, tdiv_cast512]
  have h0 : (0 : Int) ≤ data.length := by omega
  have hb := bytes_to_sectors_toNat data.length h0
  have h2 : data.start + o / 512 < 2 ^ 32 := by omega
  have h3 : ((data.start : Int) + ((o / 512 : Nat) : Int)) = ((data.start + o / 512 : Nat) : Int) := by
    push_cast
    ring
  rw [h3]
  omega

lemma byte_to_sector_eof (data : inode_disk) (pos : Int) (h : data.length ≤ pos) :
    byte_to_sector data pos = 2 ^ 32 - 1 := by
  unfold byte_to_sector
  rw [if_neg (by omega)]

/-- Repackaging of one loop iteration: prepend the iteration's device
accesses to the trace of the remaining iterations. -/
def consTrace {α : Type} (acc : List Access) (r : Int × α × List Access) :
    Int × α × List Access :=
  (r.1, r.2.1, acc ++ r.2.2)

lemma consTrace_1 {α : Type} (acc : List Access) (r : Int × α × List Access) :
    (consTrace acc r).1 = r.1 := rfl

lemma consTrace_21 {α : Type} (acc : List Access) (r : Int × α × List Access) :
    (consTrace acc r).2.1 = r.2.1 := rfl

lemma consTrace_22 {α : Type} (acc : List Access) (r : Int × α × List Access) :
    (consTrace acc r).2.2 = acc ++ r.2.2 := rfl

lemma inode_read_loop_exit (data : inode_disk) (d : Disk) (buf : Buf)
    (size offset bytes_read : Int) (hb a : Bool)
    (h : size ≤ 0 ∨ data.length ≤ offset) :
    inode_read_loop data d buf size offset bytes_read hb a = (bytes_read, buf, []) := by
  rcases h with h | h
  · rw [inode_read_loop, dif_neg (by omega)]
  · by_cases hs : 0 < size
    · rw [inode_read_loop, dif_pos hs]
      dsimp only
      rw [dif_neg (by omega)]
    · rw [inode_read_loop, dif_neg hs]

lemma inode_write_loop_exit (data : inode_disk) (d : Disk) (buf : Buf)
    (size offset bytes_written : Int) (hb a : Bool)
    (h : size ≤ 0 ∨ data.length ≤ offset) :
    inode_write_loop data d buf size offset bytes_written hb a = (bytes_written, d, []) := by
  rcases h with h | h
  · rw [inode_write_loop, dif_neg (by omega)]
  · by_cases hs : 0 < size
    · rw [inode_write_loop, dif_pos hs]
      dsimp only
      rw [dif_neg (by omega)]
    · rw [inode_write_loop, dif_neg hs]

lemma inode_read_loop_step_full (data : inode_disk) (d : Disk) (buf : Buf)
    (s o br : Nat) (hb a : Bool)
    (ho : ((o : Nat) : Int) < data.length)
    (hofs : o % 512 = 0)
    (hc : min s (min (data.length - (o : Int)).toNat (512 - o % 512)) = 512) :
    inode_read_loop data d buf (s : Int) (o : Int) (br : Int) hb a =
      consTrace [Access.read (byte_to_sector data (o : Int))]
        (inode_read_loop data d
          (copyRange buf br (devRead d (byte_to_sector data (o : Int))) 0 512)
          ((s - 512 : Nat) : Int) ((o + 512 : Nat) : Int) ((br + 512 : Nat) : Int) hb a) := by
  have hs : (0 : Int) < (s : Int) := by omega
  rw [inode_read_loop, dif_pos hs]
  dsimp only
  rw [tmod_cast512]
  have hchunk : min ((s : Nat) : Int) (min (data.length - (o : Int)) (512 - ((o % 512 : Nat) : Int)))
      = (512 : Int) := by omega
  rw [hchunk]
  rw [dif_pos (show (0 : Int) < 512 by norm_num)]
  rw [if_pos (show ((o % 512 : Nat) : Int) = 0 ∧ (512 : Int) = 512 by omega)]
  rw [toNat_cast]
  have e1 : ((s : Nat) : Int) - 512 = ((s - 512 : Nat) : Int) := by omega
  have e2 : ((o : Nat) : Int) + 512 = ((o + 512 : Nat) : Int) := by omega
  have e3 : ((br : Nat) : Int) + 512 = ((br + 512 : Nat) : Int) := by omega
  rw [e1, e2, e3]
  rfl

lemma inode_read_loop_step_bounce (data : inode_disk) (d : Disk) (buf : Buf)
    (s o br : Nat) (hb a : Bool) (c : Nat)
    (hs : 0 < s)
    (ho : ((o : Nat) : Int) < data.length)
    (hcdef : c = min s (min (data.length - (o : Int)).toNat (512 - o % 512)))
    (hnf : ¬(o % 512 = 0 ∧ c = 512))
    (halloc : (hb || a) = true) :
    inode_read_loop data d buf (s : Int) (o : Int) (br : Int) hb a =
      consTrace [Access.read (byte_to_sector data (o : Int))]
        (inode_read_loop data d
          (copyRange buf br (devRead d (byte_to_sector data (o : Int))) (o % 512) c)
          ((s - c : Nat) : Int) ((o + c : Nat) : Int) ((br + c : Nat) : Int) true a) := by
  have hs' : (0 : Int) < (s : Int) := by omega
  rw [inode_read_loop, dif_pos hs']
  dsimp only
  rw [tmod_cast512]
  have hchunk : min ((s : Nat) : Int) (min (data.length - (o : Int)) (512 - ((o % 512 : Nat) : Int)))
      = ((c : Nat) : Int) := by omega
  rw [hchunk]
  rw [dif_pos (show (0 : Int) < ((c : Nat) : Int) by omega)]
  rw [if_neg (show ¬(((o % 512 : Nat) : Int) = 0 ∧ ((c : Nat) : Int) = 512) by omega)]
  rw [if_pos halloc]
  rw [toNat_cast, toNat_cast, toNat_cast]
  have e1 : ((s : Nat) : Int) - ((c : Nat) : Int) = ((s - c : Nat) : Int) := by omega
  have e2 : ((o : Nat) : Int) + ((c : Nat) : Int) = ((o + c : Nat) : Int) := by omega
  have e3 : ((br : Nat) : Int) + ((c : Nat) : Int) = ((br + c : Nat) : Int) := by omega
  rw [e1, e2, e3]
  rfl

lemma inode_read_loop_noalloc (data : inode_disk) (d : Disk) (buf : Buf)
    (s o br : Nat) (c : Nat)
    (hs : 0 < s)
    (ho : ((o : Nat) : Int) < data.length)
    (hcdef : c = min s (min (data.length - (o : Int)).toNat (512 - o % 512)))
    (hnf : ¬(o % 512 = 0 ∧ c = 512)) :
    inode_read_loop data d buf (s : Int) (o : Int) (br : Int) false false =
      ((br : Int), buf, []) := by
  have hs' : (0 : Int) < (s : Int) := by omega
  rw [inode_read_loop, dif_pos hs']
  dsimp only
  rw [tmod_cast512]
  have hchunk : min ((s : Nat) : Int) (min (data.length - (o : Int)) (512 - ((o % 512 : Nat) : Int)))
      = ((c : Nat) : Int) := by omega
  rw [hchunk]
  rw [dif_pos (show (0 : Int) < ((c : Nat) : Int) by omega)]
  rw [if_neg (show ¬(((o % 512 : Nat) : Int) = 0 ∧ ((c : Nat) : Int) = 512) by omega)]
  rw [if_neg (show ¬((false || false) = true) by simp)]

lemma write_needs_read_true (o c : Nat) (hcsl : c ≤ 512 - o % 512)
    (hnf : ¬(o % 512 = 0 ∧ c = 512)) :
    write_needs_read ((o % 512 : Nat) : Int) ((c : Nat) : Int)
      (512 - ((o % 512 : Nat) : Int)) = true := by
  unfold write_needs_read
  rw [Bool.or_eq_true, decide_eq_true_iff, decide_eq_true_iff]
  omega

lemma inode_write_loop_step_full (data : inode_disk) (d : Disk) (buf : Buf)
    (s o bw : Nat) (hb a : Bool)
    (ho : ((o : Nat) : Int) < data.length)
    (hofs : o % 512 = 0)
    (hc : min s (min (data.length - (o : Int)).toNat (512 - o % 512)) = 512) :
    inode_write_loop data d buf (s : Int) (o : Int) (bw : Int) hb a =
      consTrace [Access.write (byte_to_sector data (o : Int))]
        (inode_write_loop data (devWrite d (byte_to_sector data (o : Int)) buf bw) buf
          ((s - 512 : Nat) : Int) ((o + 512 : Nat) : Int) ((bw + 512 : Nat) : Int) hb a) := by
  have hs : (0 : Int) < (s : Int) := by omega
  rw [inode_write_loop, dif_pos hs]
  dsimp only
  rw [tmod_cast512]
  have hchunk : min ((s : Nat) : Int) (min (data.length - (o : Int)) (512 - ((o % 512 : Nat) : Int)))
      = (512 : Int) := by omega
  rw [hchunk]
  rw [dif_pos (show (0 : Int) < 512 by norm_num)]
  rw [if_pos (show ((o % 512 : Nat) : Int) = 0 ∧ (512 : Int) = 512 by omega)]
  rw [toNat_cast]
  have e1 : ((s : Nat) : Int) - 512 = ((s - 512 : Nat) : Int) := by omega
  have e2 : ((o : Nat) : Int) + 512 = ((o + 512 : Nat) : Int) := by omega
  have e3 : ((bw : Nat) : Int) + 512 = ((bw + 512 : Nat) : Int) := by omega
  rw [e1, e2, e3]
  rfl

lemma inode_write_loop_step_bounce (data : inode_disk) (d : Disk) (buf : Buf)
    (s o bw : Nat) (hb a : Bool) (c : Nat)
    (hs : 0 < s)
    (ho : ((o : Nat) : Int) < data.length)
    (hcdef : c = min s (min (data.length - (o : Int)).toNat (512 - o % 512)))
    (hnf : ¬(o % 512 = 0 ∧ c = 512))
    (halloc : (hb || a) = true) :
    inode_write_loop data d buf (s : Int) (o : Int) (bw : Int) hb a =
      consTrace [Access.read (byte_to_sector data (o : Int)),
                 Access.write (byte_to_sector data (o : Int))]
        (inode_write_loop data
          (devWrite d (byte_to_sector data (o : Int))
            (copyRange (devRead d (byte_to_sector data (o : Int))) (o % 512) buf bw c) 0)
          buf ((s - c : Nat) : Int) ((o + c : Nat) : Int) ((bw + c : Nat) : Int) true a) := by
  have hs' : (0 : Int) < (s : Int) := by omega
  rw [inode_write_loop, dif_pos hs']
  dsimp only
  rw [tmod_cast512]
  have hchunk : min ((s : Nat) : Int) (min (data.length - (o : Int)) (512 - ((o % 512 : Nat) : Int)))
      = ((c : Nat) : Int) := by omega
  rw [hchunk]
  rw [dif_pos (show (0 : Int) < ((c : Nat) : Int) by omega)]
  rw [if_neg (show ¬(((o % 512 : Nat) : Int) = 0 ∧ ((c : Nat) : Int) = 512) by omega)]
  rw [if_pos halloc]
  rw [write_needs_read_true o c (by omega) hnf]
  rw [if_pos rfl]
  rw [toNat_cast, toNat_cast, toNat_cast]
  have e1 : ((s : Nat) : Int) - ((c : Nat) : Int) = ((s - c : Nat) : Int) := by omega
  have e2 : ((o : Nat) : Int) + ((c : Nat) : Int) = ((o + c : Nat) : Int) := by omega
  have e3 : ((bw : Nat) : Int) + ((c : Nat) : Int) = ((bw + c : Nat) : Int) := by omega
  rw [e1, e2, e3]
  rfl

lemma inode_write_loop_noalloc (data : inode_disk) (d : Disk) (buf : Buf)
    (s o bw : Nat) (c : Nat)
    (hs : 0 < s)
    (ho : ((o : Nat) : Int) < data.length)
    (hcdef : c = min s (min (data.length - (o : Int)).toNat (512 - o % 512)))
    (hnf : ¬(o % 512 = 0 ∧ c = 512)) :
    inode_write_loop data d buf (s : Int) (o : Int) (bw : Int) false false =
      ((bw : Int), d, []) := by
  have hs' : (0 : Int) < (s : Int) := by omega
  rw [inode_write_loop, dif_pos hs']
  dsimp only
  rw [tmod_cast512]
  have hchunk : min ((s : Nat) : Int) (min (data.length - (o : Int)) (512 - ((o % 512 : Nat) : Int)))
      = ((c : Nat) : Int) := by omega
  rw [hchunk]
  rw [dif_pos (show (0 : Int) < ((c : Nat) : Int) by omega)]
  rw [if_neg (show ¬(((o % 512 : Nat) : Int) = 0 ∧ ((c : Nat) : Int) = 512) by omega)]
  rw [if_neg (show ¬((false || false) = true) by simp)]

lemma inode_read_loop_count (data : inode_disk) (d : Disk) :
    ∀ (s : Nat), ∀ (o br : Nat) (buf : Buf) (hb : Bool),
      (inode_read_loop data d buf (s : Int) (o : Int) (br : Int) hb true).1 =
        ((br + min s (data.length - (o : Int)).toNat : Nat) : Int) := by
  intro s
  induction s using Nat.strong_induction_on with
  | _ s IH =>
    intro o br buf hb
    by_cases hs : 0 < s
    · by_cases ho : ((o : Nat) : Int) < data.length
      · by_cases hfull : o % 512 = 0 ∧
            min s (min (data.length - (o : Int)).toNat (512 - o % 512)) = 512
        · rw [inode_read_loop_step_full data d buf s o br hb true ho hfull.1 hfull.2,
            consTrace_1]
          rw [IH (s - 512) (by omega) (o + 512) (br + 512) _ hb]
          omega
        · have hcpos : 0 < min s (min (data.length - (o : Int)).toNat (512 - o % 512)) := by
            omega
          rw [inode_read_loop_step_bounce data d buf s o br hb true _ hs ho rfl hfull
            (by simp), consTrace_1]
          rw [IH (s - min s (min (data.length - (o : Int)).toNat (512 - o % 512))) (by omega)]
          omega
      · rw [inode_read_loop_exit data d buf (s : Int) (o : Int) (br : Int) hb true
          (Or.inr (by omega))]
        dsimp only
        omega
    · rw [inode_read_loop_exit data d buf (s : Int) (o : Int) (br : Int) hb true
        (Or.inl (by omega))]
      dsimp only
      omega

lemma inode_write_loop_count (data : inode_disk) :
    ∀ (s : Nat), ∀ (d : Disk) (o bw : Nat) (buf : Buf) (hb : Bool),
      (inode_write_loop data d buf (s : Int) (o : Int) (bw : Int) hb true).1 =
        ((bw + min s (data.length - (o : Int)).toNat : Nat) : Int) := by
  intro s
  induction s using Nat.strong_induction_on with
  | _ s IH =>
    intro d o bw buf hb
    by_cases hs : 0 < s
    · by_cases ho : ((o : Nat) : Int) < data.length
      · by_cases hfull : o % 512 = 0 ∧
            min s (min (data.length - (o : Int)).toNat (512 - o % 512)) = 512
        · rw [inode_write_loop_step_full data d buf s o bw hb true ho hfull.1 hfull.2,
            consTrace_1]
          rw [IH (s - 512) (by omega) _ (o + 512) (bw + 512) _ hb]
          omega
        · have hcpos : 0 < min s (min (data.length - (o : Int)).toNat (512 - o % 512)) := by
            omega
          rw [inode_write_loop_step_bounce data d buf s o bw hb true _ hs ho rfl hfull
            (by simp), consTrace_1]
          rw [IH (s - min s (min (data.length - (o : Int)).toNat (512 - o % 512))) (by omega)]
          omega
      · rw [inode_write_loop_exit data d buf (s : Int) (o : Int) (bw : Int) hb true
          (Or.inr (by omega))]
        dsimp only
        omega
    · rw [inode_write_loop_exit data d buf (s : Int) (o : Int) (bw : Int) hb true
        (Or.inl (by omega))]
      dsimp only
      omega


lemma inode_read_loop_count_le (data : inode_disk) (d : Disk) :
    ∀ (s : Nat), ∀ (o br : Nat) (buf : Buf) (hb a : Bool),
      (br : Int) ≤ (inode_read_loop data d buf (s : Int) (o : Int) (br : Int) hb a).1 ∧
      (inode_read_loop data d buf (s : Int) (o : Int) (br : Int) hb a).1 ≤
        ((br + s : Nat) : Int) := by
  intro s
  induction s using Nat.strong_induction_on with
  | _ s IH =>
    intro o br buf hb a
    by_cases hs : 0 < s
    · by_cases ho : ((o : Nat) : Int) < data.length
      · set c := min s (min (data.length - (o : Int)).toNat (512 - o % 512)) with hcdef
        by_cases hfull : o % 512 = 0 ∧ c = 512
        · rw [inode_read_loop_step_full data d buf s o br hb a ho hfull.1
            (by rw [← hcdef]; exact hfull.2), consTrace_1]
          have h := IH (s - 512) (by omega) (o + 512) (br + 512)
            (copyRange buf br (devRead d (byte_to_sector data (o : Int))) 0 512) hb a
          omega
        · have hcpos : 0 < c := by omega
          by_cases halloc : (hb || a) = true
          · rw [inode_read_loop_step_bounce data d buf s o br hb a c hs ho hcdef hfull
              halloc, consTrace_1]
            have h := IH (s - c) (by omega) (o + c) (br + c)
              (copyRange buf br (devRead d (byte_to_sector data (o : Int))) (o % 512) c) true a
            omega
          · cases hb with
            | true =>
              rw [Bool.true_or] at halloc
              exact absurd rfl halloc
            | false =>
              cases a with
              | true =>
                rw [Bool.false_or] at halloc
                exact absurd rfl halloc
              | false =>
                rw [inode_read_loop_noalloc data d buf s o br c hs ho hcdef hfull]
                dsimp only
                omega
      · rw [inode_read_loop_exit data d buf (s : Int) (o : Int) (br : Int) hb a
          (Or.inr (by omega))]
        dsimp only
        omega
    · rw [inode_read_loop_exit data d buf (s : Int) (o : Int) (br : Int) hb a
        (Or.inl (by omega))]
      dsimp only
      omega

lemma inode_write_loop_count_le (data : inode_disk) :
    ∀ (s : Nat), ∀ (d : Disk) (o bw : Nat) (buf : Buf) (hb a : Bool),
      (bw : Int) ≤ (inode_write_loop data d buf (s : Int) (o : Int) (bw : Int) hb a).1 ∧
      (inode_write_loop data d buf (s : Int) (o : Int) (bw : Int) hb a).1 ≤
        ((bw + s : Nat) : Int) := by
  intro s
  induction s using Nat.strong_induction_on with
  | _ s IH =>
    intro d o bw buf hb a
    by_cases hs : 0 < s
    · by_cases ho : ((o : Nat) : Int) < data.length
      · set c := min s (min (data.length - (o : Int)).toNat (512 - o % 512)) with hcdef
        by_cases hfull : o % 512 = 0 ∧ c = 512
        · rw [inode_write_loop_step_full data d buf s o bw hb a ho hfull.1
            (by rw [← hcdef]; exact hfull.2), consTrace_1]
          have h := IH (s - 512) (by omega)
            (devWrite d (byte_to_sector data (o : Int)) buf bw) (o + 512) (bw + 512) buf hb a
          omega
        · have hcpos : 0 < c := by omega
          by_cases halloc : (hb || a) = true
          · rw [inode_write_loop_step_bounce data d buf s o bw hb a c hs ho hcdef hfull
              halloc, consTrace_1]
            have h := IH (s - c) (by omega)
              (devWrite d (byte_to_sector data (o : Int))
                (copyRange (devRead d (byte_to_sector data (o : Int))) (o % 512) buf bw c) 0)
              (o + c) (bw + c) buf true a
            omega
          · cases hb with
            | true =>
              rw [Bool.true_or] at halloc
              exact absurd rfl halloc
            | false =>
              cases a with
              | true =>
                rw [Bool.false_or] at halloc
                exact absurd rfl halloc
              | false =>
                rw [inode_write_loop_noalloc data d buf s o bw c hs ho hcdef hfull]
                dsimp only
                omega
      · rw [inode_write_loop_exit data d buf (s : Int) (o : Int) (bw : Int) hb a
          (Or.inr (by omega))]
        dsimp only
        omega
    · rw [inode_write_loop_exit data d buf (s : Int) (o : Int) (bw : Int) hb a
        (Or.inl (by omega))]
      dsimp only
      omega

lemma devRead_eq (d : Disk) (idx i : Nat) : devRead d idx i = d idx i := rfl

lemma inode_read_loop_spec (data : inode_disk) (d : Disk)
    (hw : data.start + bytes_to_sectors data.length ≤ 2 ^ 32) :
    ∀ (s : Nat), ∀ (o br : Nat) (buf : Buf) (hb : Bool),
      (∀ i : Nat, i < br ∨ br + min s (data.length - (o : Int)).toNat ≤ i →
        (inode_read_loop data d buf (s : Int) (o : Int) (br : Int) hb true).2.1 i = buf i) ∧
      (∀ k : Nat, k < min s (data.length - (o : Int)).toNat →
        (inode_read_loop data d buf (s : Int) (o : Int) (br : Int) hb true).2.1 (br + k) =
          d (data.start + (o + k) / 512) ((o + k) % 512)) := by
  intro s
  induction s using Nat.strong_induction_on with
  | _ s IH =>
    intro o br buf hb
    by_cases hs : 0 < s
    · by_cases ho : ((o : Nat) : Int) < data.length
      · have h0 : (0 : Int) ≤ data.length := by omega
        have hbs := bytes_to_sectors_toNat data.length h0
        have hσ : byte_to_sector data (o : Int) = data.start + o / 512 :=
          byte_to_sector_eq data o ho hw
        set c := min s (min (data.length - (o : Int)).toNat (512 - o % 512)) with hcdef
        by_cases hfull : o % 512 = 0 ∧ c = 512
        · rw [inode_read_loop_step_full data d buf s o br hb true ho hfull.1
            (by rw [← hcdef]; exact hfull.2), consTrace_21, hσ]
          have hIH := IH (s - 512) (by omega) (o + 512) (br + 512)
            (copyRange buf br (devRead d (data.start + o / 512)) 0 512) hb
          have hcnt : min s (data.length - (o : Int)).toNat =
              512 + min (s - 512) (data.length - ((o + 512 : Nat) : Int)).toNat := by omega
          constructor
          · intro i hi
            rw [hIH.1 i (by omega)]
            exact copyRange_miss _ _ _ _ _ _ (by omega)
          · intro k hk
            by_cases hk512 : k < 512
            · rw [hIH.1 (br + k) (by omega)]
              rw [copyRange_hit buf br _ 0 512 (br + k) (by omega) (by omega)]
              rw [devRead_eq]
              have e0 : 0 + (br + k - br) = k := by omega
              have e1 : (o + k) / 512 = o / 512 := by omega
              have e2 : (o + k) % 512 = k := by omega
              rw [e0, e1, e2]
            · have e : br + k = (br + 512) + (k - 512) := by omega
              rw [e]
              have h2 := hIH.2 (k - 512) (by omega)
              have e2 : (o + 512) + (k - 512) = o + k := by omega
              rw [e2] at h2
              exact h2
        · have hcpos : 0 < c := by omega
          rw [inode_read_loop_step_bounce data d buf s o br hb true c hs ho hcdef hfull
            (by simp), consTrace_21, hσ]
          have hIH := IH (s - c) (by omega) (o + c) (br + c)
            (copyRange buf br (devRead d (data.start + o / 512)) (o % 512) c) true
          have hcnt : min s (data.length - (o : Int)).toNat =
              c + min (s - c) (data.length - ((o + c : Nat) : Int)).toNat := by omega
          constructor
          · intro i hi
            rw [hIH.1 i (by omega)]
            exact copyRange_miss _ _ _ _ _ _ (by omega)
          · intro k hk
            by_cases hkc : k < c
            · rw [hIH.1 (br + k) (by omega)]
              rw [copyRange_hit buf br _ (o % 512) c (br + k) (by omega) (by omega)]
              rw [devRead_eq]
              have e0 : o % 512 + (br + k - br) = o % 512 + k := by omega
              have e1 : (o + k) / 512 = o / 512 := by omega
              have e2 : (o + k) % 512 = o % 512 + k := by omega
              rw [e0, e1, e2]
            · have e : br + k = (br + c) + (k - c) := by omega
              rw [e]
              have h2 := hIH.2 (k - c) (by omega)
              have e2 : (o + c) + (k - c) = o + k := by omega
              rw [e2] at h2
              exact h2
      · rw [inode_read_loop_exit data d buf (s : Int) (o : Int) (br : Int) hb true
          (Or.inr (by omega))]
        dsimp only
        exact ⟨fun i _ => rfl, fun k hk => absurd hk (by omega)⟩
    · rw [inode_read_loop_exit data d buf (s : Int) (o : Int) (br : Int) hb true
        (Or.inl (by omega))]
      dsimp only
      exact ⟨fun i _ => rfl, fun k hk => absurd hk (by omega)⟩

lemma inode_write_loop_spec (data : inode_disk)
    (hw : data.start + bytes_to_sectors data.length ≤ 2 ^ 32) :
    ∀ (s : Nat), ∀ (d : Disk) (o bw : Nat) (buf : Buf) (hb : Bool),
      (∀ σ : Nat, σ < data.start + o / 512 →
        (inode_write_loop data d buf (s : Int) (o : Int) (bw : Int) hb true).2.1 σ = d σ) ∧
      (∀ k : Nat, k < min s (data.length - (o : Int)).toNat →
        (inode_write_loop data d buf (s : Int) (o : Int) (bw : Int) hb true).2.1
          (data.start + (o + k) / 512) ((o + k) % 512) = buf (bw + k)) := by
  intro s
  induction s using Nat.strong_induction_on with
  | _ s IH =>
    intro d o bw buf hb
    by_cases hs : 0 < s
    · by_cases ho : ((o : Nat) : Int) < data.length
      · have h0 : (0 : Int) ≤ data.length := by omega
        have hbs := bytes_to_sectors_toNat data.length h0
        have hσ : byte_to_sector data (o : Int) = data.start + o / 512 :=
          byte_to_sector_eq data o ho hw
        set c := min s (min (data.length - (o : Int)).toNat (512 - o % 512)) with hcdef
        by_cases hfull : o % 512 = 0 ∧ c = 512
        · rw [inode_write_loop_step_full data d buf s o bw hb true ho hfull.1
            (by rw [← hcdef]; exact hfull.2), consTrace_21, hσ]
          have hIH := IH (s - 512) (by omega) (devWrite d (data.start + o / 512) buf bw)
            (o + 512) (bw + 512) buf hb
          have hcnt : min s (data.length - (o : Int)).toNat =
              512 + min (s - 512) (data.length - ((o + 512 : Nat) : Int)).toNat := by omega
          have hdiv : (o + 512) / 512 = o / 512 + 1 := by omega
          constructor
          · intro σ hσlt
            rw [hIH.1 σ (by omega)]
            exact devWrite_other _ _ _ _ _ (by omega)
          · intro k hk
            by_cases hk512 : k < 512
            · have e1 : (o + k) / 512 = o / 512 := by omega
              have e2 : (o + k) % 512 = k := by omega
              rw [e1, e2]
              rw [hIH.1 (data.start + o / 512) (by omega)]
              rw [devWrite_self d _ buf bw k hk512]
            · have h2 := hIH.2 (k - 512) (by omega)
              have e2 : (o + 512) + (k - 512) = o + k := by omega
              have e3 : (bw + 512) + (k - 512) = bw + k := by omega
              rw [e2, e3] at h2
              exact h2
        · have hcpos : 0 < c := by omega
          rw [inode_write_loop_step_bounce data d buf s o bw hb true c hs ho hcdef hfull
            (by simp), consTrace_21, hσ]
          by_cases hcsl : c = 512 - o % 512
          · -- the chunk reaches the end of the sector: the remaining
            -- iterations work on strictly later sectors
            have hIH := IH (s - c) (by omega)
              (devWrite d (data.start + o / 512)
                (copyRange (devRead d (data.start + o / 512)) (o % 512) buf bw c) 0)
              (o + c) (bw + c) buf true
            have hcnt : min s (data.length - (o : Int)).toNat =
                c + min (s - c) (data.length - ((o + c : Nat) : Int)).toNat := by omega
            have hdiv : (o + c) / 512 = o / 512 + 1 := by omega
            constructor
            · intro σ hσlt
              rw [hIH.1 σ (by omega)]
              exact devWrite_other _ _ _ _ _ (by omega)
            · intro k hk
              by_cases hkc : k < c
              · have e1 : (o + k) / 512 = o / 512 := by omega
                have e2 : (o + k) % 512 = o % 512 + k := by omega
                rw [e1, e2]
                rw [hIH.1 (data.start + o / 512) (by omega)]
                rw [devWrite_self _ _ _ 0 (o % 512 + k) (by omega)]
                rw [copyRange_hit _ (o % 512) buf bw c (0 + (o % 512 + k)) (by omega)
                  (by omega)]
                have e3 : bw + (0 + (o % 512 + k) - o % 512) = bw + k := by omega
                rw [e3]
              · have h2 := hIH.2 (k - c) (by omega)
                have e2 : (o + c) + (k - c) = o + k := by omega
                have e3 : (bw + c) + (k - c) = bw + k := by omega
                rw [e2, e3] at h2
                exact h2
          · -- the chunk stops short of the sector end, so the request or
            -- the file is exhausted and the loop exits next iteration
            have hstop : s - c = 0 ∨ data.length ≤ ((o + c : Nat) : Int) := by omega
            rw [inode_write_loop_exit data _ buf ((s - c : Nat) : Int) ((o + c : Nat) : Int)
              ((bw + c : Nat) : Int) true true (by omega)]
            dsimp only
            have hcnt : min s (data.length - (o : Int)).toNat = c := by omega
            constructor
            · intro σ hσlt
              exact devWrite_other _ _ _ _ _ (by omega)
            · intro k hk
              have hkc : k < c := by omega
              have e1 : (o + k) / 512 = o / 512 := by omega
              have e2 : (o + k) % 512 = o % 512 + k := by omega
              rw [e1, e2]
              rw [devWrite_self _ _ _ 0 (o % 512 + k) (by omega)]
              rw [copyRange_hit _ (o % 512) buf bw c (0 + (o % 512 + k)) (by omega)
                (by omega)]
              have e3 : bw + (0 + (o % 512 + k) - o % 512) = bw + k := by omega
              rw [e3]
      · rw [inode_write_loop_exit data d buf (s : Int) (o : Int) (bw : Int) hb true
          (Or.inr (by omega))]
        dsimp only
        exact ⟨fun σ _ => rfl, fun k hk => absurd hk (by omega)⟩
    · rw [inode_write_loop_exit data d buf (s : Int) (o : Int) (bw : Int) hb true
        (Or.inl (by omega))]
      dsimp only
      exact ⟨fun σ _ => rfl, fun k hk => absurd hk (by omega)⟩

lemma accessSector_read (s : Nat) : accessSector (Access.read s) = s := rfl

lemma accessSector_write (s : Nat) : accessSector (Access.write s) = s := rfl

lemma inode_read_loop_trace (data : inode_disk) (d : Disk)
    (hw : data.start + bytes_to_sectors data.length ≤ 2 ^ 32) :
    ∀ (s : Nat), ∀ (o br : Nat) (buf : Buf) (hb a : Bool),
      ∀ acc ∈ (inode_read_loop data d buf (s : Int) (o : Int) (br : Int) hb a).2.2,
        data.start ≤ accessSector acc ∧
        accessSector acc < data.start + bytes_to_sectors data.length := by
  intro s
  induction s using Nat.strong_induction_on with
  | _ s IH =>
    intro o br buf hb a acc hacc
    by_cases hs : 0 < s
    · by_cases ho : ((o : Nat) : Int) < data.length
      · have h0 : (0 : Int) ≤ data.length := by omega
        have hbs := bytes_to_sectors_toNat data.length h0
        have hσ : byte_to_sector data (o : Int) = data.start + o / 512 :=
          byte_to_sector_eq data o ho hw
        set c := min s (min (data.length - (o : Int)).toNat (512 - o % 512)) with hcdef
        by_cases hfull : o % 512 = 0 ∧ c = 512
        · rw [inode_read_loop_step_full data d buf s o br hb a ho hfull.1
            (by rw [← hcdef]; exact hfull.2), consTrace_22, List.singleton_append] at hacc
          rcases List.mem_cons.mp hacc with rfl | h
          · rw [hσ, accessSector_read]
            omega
          · exact IH (s - 512) (by omega) (o + 512) (br + 512) _ hb a acc h
        · have hcpos : 0 < c := by omega
          by_cases halloc : (hb || a) = true
          · rw [inode_read_loop_step_bounce data d buf s o br hb a c hs ho hcdef hfull
              halloc, consTrace_22, List.singleton_append] at hacc
            rcases List.mem_cons.mp hacc with rfl | h
            · rw [hσ, accessSector_read]
              omega
            · exact IH (s - c) (by omega) (o + c) (br + c) _ true a acc h
          · cases hb with
            | true =>
              rw [Bool.true_or] at halloc
              exact absurd rfl halloc
            | false =>
              cases a with
              | true =>
                rw [Bool.false_or] at halloc
                exact absurd rfl halloc
              | false =>
                rw [inode_read_loop_noalloc data d buf s o br c hs ho hcdef hfull] at hacc
                exact absurd hacc (List.not_mem_nil acc)
      · rw [inode_read_loop_exit data d buf (s : Int) (o : Int) (br : Int) hb a
          (Or.inr (by omega))] at hacc
        exact absurd hacc (List.not_mem_nil acc)
    · rw [inode_read_loop_exit data d buf (s : Int) (o : Int) (br : Int) hb a
        (Or.inl (by omega))] at hacc
      exact absurd hacc (List.not_mem_nil acc)

lemma inode_write_loop_trace (data : inode_disk)
    (hw : data.start + bytes_to_sectors data.length ≤ 2 ^ 32) :
    ∀ (s : Nat), ∀ (d : Disk) (o bw : Nat) (buf : Buf) (hb a : Bool),
      ∀ acc ∈ (inode_write_loop data d buf (s : Int) (o : Int) (bw : Int) hb a).2.2,
        data.start ≤ accessSector acc ∧
        accessSector acc < data.start + bytes_to_sectors data.length := by
  intro s
  induction s using Nat.strong_induction_on with
  | _ s IH =>
    intro d o bw buf hb a acc hacc
    by_cases hs : 0 < s
    · by_cases ho : ((o : Nat) : Int) < data.length
      · have h0 : (0 : Int) ≤ data.length := by omega
        have hbs := bytes_to_sectors_toNat data.length h0
        have hσ : byte_to_sector data (o : Int) = data.start + o / 512 :=
          byte_to_sector_eq data o ho hw
        set c := min s (min (data.length - (o : Int)).toNat (512 - o % 512)) with hcdef
        by_cases hfull : o % 512 = 0 ∧ c = 512
        · rw [inode_write_loop_step_full data d buf s o bw hb a ho hfull.1
            (by rw [← hcdef]; exact hfull.2), consTrace_22, List.singleton_append] at hacc
          rcases List.mem_cons.mp hacc with rfl | h
          · rw [hσ, accessSector_write]
            omega
          · exact IH (s - 512) (by omega) _ (o + 512) (bw + 512) buf hb a acc h
        · have hcpos : 0 < c := by omega
          by_cases halloc : (hb || a) = true
          · rw [inode_write_loop_step_bounce data d buf s o bw hb a c hs ho hcdef hfull
              halloc, consTrace_22] at hacc
            rcases List.mem_cons.mp hacc with rfl | h
            · rw [hσ, accessSector_read]
              omega
            · rcases List.mem_cons.mp h with rfl | h2
              · rw [hσ, accessSector_write]
                omega
              · exact IH (s - c) (by omega) _ (o + c) (bw + c) buf true a acc h2
          · cases hb with
            | true =>
              rw [Bool.true_or] at halloc
              exact absurd rfl halloc
            | false =>
              cases a with
              | true =>
                rw [Bool.false_or] at halloc
                exact absurd rfl halloc
              | false =>
                rw [inode_write_loop_noalloc data d buf s o bw c hs ho hcdef hfull] at hacc
                exact absurd hacc (List.not_mem_nil acc)
      · rw [inode_write_loop_exit data d buf (s : Int) (o : Int) (bw : Int) hb a
          (Or.inr (by omega))] at hacc
        exact absurd hacc (List.not_mem_nil acc)
    · rw [inode_write_loop_exit data d buf (s : Int) (o : Int) (bw : Int) hb a
        (Or.inl (by omega))] at hacc
      exact absurd hacc (List.not_mem_nil acc)

/-! ### Claim theorems -/

/-- C5: for every inode, size `s ≥ 0` and offset `o`, `inode_read_at` and
`inode_write_at` both return `min s (max 0 (length - o))` bytes when the
bounce-buffer allocation succeeds, and even with a failing allocation they
return a partial count between `0` and `s` (the loop stops early instead
of failing the call). -/
theorem C5_read_write_return_count (data : inode_disk) (d : Disk) (buf : Buf)
    (s o : Nat) (a : Bool) :
    (inode_read_at data d buf (s : Int) (o : Int) true).1 =
      min (s : Int) (max 0 (data.length - (o : Int))) ∧
    (inode_write_at data d buf (s : Int) (o : Int) true).1 =
      min (s : Int) (max 0 (data.length - (o : Int))) ∧
    (0 ≤ (inode_read_at data d buf (s : Int) (o : Int) a).1 ∧
      (inode_read_at data d buf (s : Int) (o : Int) a).1 ≤ (s : Int)) ∧
    (0 ≤ (inode_write_at data d buf (s : Int) (o : Int) a).1 ∧
      (inode_write_at data d buf (s : Int) (o : Int) a).1 ≤ (s : Int)) := by
  unfold inode_read_at inode_write_at
  have h1 := inode_read_loop_count data d s o 0 buf false
  have h2 := inode_write_loop_count data s d o 0 buf false
  have h3 := inode_read_loop_count_le data d s o 0 buf false a
  have h4 := inode_write_loop_count_le data s d o 0 buf false a
  rw [Nat.cast_zero] at h1 h2 h3 h4
  refine ⟨?_, ?_, ?_, ?_⟩
  · rw [h1]
    omega
  · rw [h2]
    omega
  · omega
  · omega

/-- C1: for every inode whose data region fits in the sector address
space, writing the `n` bytes of `wbuf` at offset `o` (with
`o + n ≤ length`) and then reading `n` bytes back from offset `o`
transfers `n` bytes each way and returns exactly the written bytes, both
when `[o, o+n)` crosses a sector boundary and when it does not. -/
theorem C1_write_read_round_trip (data : inode_disk) (d : Disk) (wbuf rbuf : Buf)
    (o n : Nat)
    (hlen : ((o + n : Nat) : Int) ≤ data.length)
    (hw : data.start + bytes_to_sectors data.length ≤ 2 ^ 32) :
    (inode_write_at data d wbuf (n : Int) (o : Int) true).1 = (n : Int) ∧
    (inode_read_at data (inode_write_at data d wbuf (n : Int) (o : Int) true).2.1 rbuf
      (n : Int) (o : Int) true).1 = (n : Int) ∧
    ∀ k : Nat, k < n →
      (inode_read_at data (inode_write_at data d wbuf (n : Int) (o : Int) true).2.1 rbuf
        (n : Int) (o : Int) true).2.1 k = wbuf k := by
  unfold inode_read_at inode_write_at
  have hcnt : min n (data.length - (o : Int)).toNat = n := by omega
  have h1 := inode_write_loop_count data n d o 0 wbuf false
  rw [Nat.cast_zero] at h1
  have h2 := inode_read_loop_count data
    (inode_write_loop data d wbuf (n : Int) (o : Int) 0 false true).2.1 n o 0 rbuf false
  rw [Nat.cast_zero] at h2
  have hws := inode_write_loop_spec data hw n d o 0 wbuf false
  rw [Nat.cast_zero] at hws
  have hrs := inode_read_loop_spec data
    (inode_write_loop data d wbuf (n : Int) (o : Int) 0 false true).2.1 hw n o 0 rbuf false
  rw [Nat.cast_zero] at hrs
  refine ⟨?_, ?_, ?_⟩
  · rw [h1, hcnt]
    omega
  · rw [h2, hcnt]
    omega
  · intro k hk
    have hr := hrs.2 k (by omega)
    rw [Nat.zero_add] at hr
    have hwc := hws.2 k (by omega)
    rw [Nat.zero_add] at hwc
    rw [hr, hwc]

/-- Witness for C1: a 30-byte write at offset 500 of a 1024-byte file
starting at sector 3 (the range crosses the sector boundary at 512)
transfers 30 bytes and reads back the written byte at index 20. -/
theorem C1_witness :
    (inode_write_at ⟨3, 1024, INODE_MAGIC, fun _ => 0⟩ diskZero (fun i => (i + 1) % 256)
      (30 : Int) (500 : Int) true).1 = (30 : Int) ∧
    (inode_read_at ⟨3, 1024, INODE_MAGIC, fun _ => 0⟩
      (inode_write_at ⟨3, 1024, INODE_MAGIC, fun _ => 0⟩ diskZero (fun i => (i + 1) % 256)
        (30 : Int) (500 : Int) true).2.1 (fun _ => 0) (30 : Int) (500 : Int) true).2.1 20
      = 21 := by
  have h := C1_write_read_round_trip ⟨3, 1024, INODE_MAGIC, fun _ => 0⟩ diskZero
    (fun i => (i + 1) % 256) (fun _ => 0) 500 30 (by decide) (by decide)
  exact ⟨h.1, (h.2.2 20 (by decide)).trans (by norm_num)⟩

/-- C10: every device access performed by the read or write path (for any
allocation outcome) targets a sector in
`[start, start + bytes_to_sectors length)` of the handle's cached
descriptor, and `byte_to_sector` yields the sentinel `2^32 - 1` instead of
a sector whenever the offset is not strictly below the file length. -/
theorem C10_accesses_in_bounds (data : inode_disk) (d : Disk) (buf : Buf)
    (s o : Nat) (a : Bool)
    (hw : data.start + bytes_to_sectors data.length ≤ 2 ^ 32) :
    (∀ acc ∈ (inode_read_at data d buf (s : Int) (o : Int) a).2.2,
      data.start ≤ accessSector acc ∧
      accessSector acc < data.start + bytes_to_sectors data.length) ∧
    (∀ acc ∈ (inode_write_at data d buf (s : Int) (o : Int) a).2.2,
      data.start ≤ accessSector acc ∧
      accessSector acc < data.start + bytes_to_sectors data.length) ∧
    (∀ pos : Int, data.length ≤ pos → byte_to_sector data pos = 2 ^ 32 - 1) := by
  unfold inode_read_at inode_write_at
  have h1 := inode_read_loop_trace data d hw s o 0 buf false a
  have h2 := inode_write_loop_trace data hw s d o 0 buf false a
  rw [Nat.cast_zero] at h1 h2
  exact ⟨h1, h2, fun pos hpos => byte_to_sector_eof data pos hpos⟩

/-- Witness for C10: on a 1024-byte file the translator maps the
past-the-end offset 2000 to the sentinel value. -/
theorem C10_witness :
    byte_to_sector ⟨3, 1024, INODE_MAGIC, fun _ => 0⟩ (2000 : Int) = 2 ^ 32 - 1 :=
  (C10_accesses_in_bounds ⟨3, 1024, INODE_MAGIC, fun _ => 0⟩ diskZero (fun _ => 0)
    1 0 true (by decide)).2.2 (2000 : Int) (by decide)

/-! ### Descriptor encoding/decoding lemmas -/

lemma inode_disk_bytes_hi (di : inode_disk) (hz : ∀ w, di.unused w = 0)
    (i : Nat) (h : 12 ≤ i) : inode_disk_bytes di i = 0 := by
  unfold inode_disk_bytes
  rw [if_neg (by omega), if_neg (by omega), if_neg (by omega)]
  by_cases h5 : i < 512
  · rw [if_pos h5, hz]
    norm_num
  · rw [if_neg h5]

lemma devWrite_inode_bytes (d : Disk) (idx : Nat) (di : inode_disk) :
    devWrite d idx (inode_disk_bytes di) 0 idx = inode_disk_bytes di := by
  funext i
  by_cases h : i < 512
  · rw [devWrite_self _ _ _ _ _ h, Nat.zero_add]
  · rw [devWrite_self_hi _ _ _ _ _ h]
    unfold inode_disk_bytes
    rw [if_neg (by omega), if_neg (by omega), if_neg (by omega), if_neg (by omega)]

lemma decode_u32_bytes_start (st : Nat) (L : Int) (mg : Nat) (hst : st < 2 ^ 32) :
    decode_u32 (inode_disk_bytes ⟨st, L, mg, fun _ => 0⟩) 0 = st := by
  unfold decode_u32 inode_disk_bytes
  norm_num
  omega

lemma decode_off_bytes_length (st : Nat) (L : Int) (mg : Nat)
    (h0 : 0 ≤ L) (h1 : L < 2 ^ 31) :
    decode_off_t (inode_disk_bytes ⟨st, L, mg, fun _ => 0⟩) 4 = L := by
  unfold decode_off_t decode_u32 inode_disk_bytes
  norm_num
  have hL : L % (4294967296 : Int) = L := by omega
  rw [hL]
  have ht : (L.toNat : Int) = L := by omega
  rw [if_pos (by omega)]
  omega

lemma decode_u32_bytes_magic (st : Nat) (L : Int) (mg : Nat) (hmg : mg < 2 ^ 32) :
    decode_u32 (inode_disk_bytes ⟨st, L, mg, fun _ => 0⟩) 8 = mg := by
  unfold decode_u32 inode_disk_bytes
  norm_num
  omega

lemma decode_u32_bytes_unused (st : Nat) (L : Int) (mg : Nat) (ofs : Nat) :
    decode_u32 (inode_disk_bytes ⟨st, L, mg, fun _ => 0⟩) (12 + ofs) = 0 := by
  unfold decode_u32
  rw [inode_disk_bytes_hi _ (fun _ => rfl) _ (by omega),
    inode_disk_bytes_hi _ (fun _ => rfl) _ (by omega),
    inode_disk_bytes_hi _ (fun _ => rfl) _ (by omega),
    inode_disk_bytes_hi _ (fun _ => rfl) _ (by omega)]
  norm_num

/-- C2: a successful `inode_create (sector, L)` asks the allocator for
exactly `bytes_to_sectors L = ⌈L/512⌉` sectors, writes the descriptor
(length `L`, magic tag, zeroed reserved region) to the descriptor sector,
zero-fills every allocated data sector, and any subsequent read of the
file opened from that descriptor returns only zero bytes.  Side
conditions: the descriptor sector is disjoint from the granted data
sectors, and all sector numbers fit in `disk_sector_t`. -/
theorem C2_create_success (alloc : Nat → Option Nat) (d : Disk) (sector L start : Nat)
    (halloc : alloc (bytes_to_sectors (L : Int)) = some start)
    (hstart : start < 2 ^ 32)
    (hL : L < 2 ^ 31)
    (hw : start + bytes_to_sectors (L : Int) ≤ 2 ^ 32)
    (hdisj : ∀ j, j < bytes_to_sectors (L : Int) → start + j ≠ sector) :
    ∃ d' : Disk,
      inode_create alloc true d sector (L : Int) = .ok (true, d') ∧
      bytes_to_sectors (L : Int) = (L + 511) / 512 ∧
      d' sector = inode_disk_bytes ⟨start, (L : Int), INODE_MAGIC, fun _ => 0⟩ ∧
      (∀ i, 12 ≤ i → d' sector i = 0) ∧
      (∀ j, j < bytes_to_sectors (L : Int) → ∀ i, d' (start + j) i = 0) ∧
      read_inode_disk d' sector = ⟨start, (L : Int), INODE_MAGIC, fun _ => 0⟩ ∧
      (∀ (buf : Buf) (s o : Nat), ∀ k : Nat,
        k < min s (((L : Int) - (o : Int)).toNat) →
        (inode_read_at (read_inode_disk d' sector) d' buf (s : Int) (o : Int) true).2.1 k
          = 0) := by
  refine ⟨zeroFill
    (devWrite d sector (inode_disk_bytes ⟨start, (L : Int), INODE_MAGIC, fun _ => 0⟩) 0)
    start (bytes_to_sectors (L : Int)), ?_, ?_, ?_, ?_, ?_, ?_, ?_⟩
  · unfold inode_create
    rw [if_neg (show ¬((L : Int) < 0) by omega), if_pos rfl]
    dsimp only
    rw [halloc]
  · rw [bytes_to_sectors_toNat ((L : Nat) : Int) (by omega), toNat_cast]
  · rw [zeroFill_out _ _ _ _ hdisj, devWrite_inode_bytes]
  · intro i hi
    rw [zeroFill_out _ _ _ _ hdisj, devWrite_inode_bytes]
    exact inode_disk_bytes_hi _ (fun _ => rfl) i hi
  · intro j hj i
    exact zeroFill_in _ _ _ _ _ hj
  · unfold read_inode_disk
    rw [zeroFill_out _ _ _ _ hdisj, devWrite_inode_bytes]
    rw [decode_u32_bytes_start start ((L : Nat) : Int) INODE_MAGIC hstart]
    rw [decode_off_bytes_length start ((L : Nat) : Int) INODE_MAGIC (by omega) (by omega)]
    rw [decode_u32_bytes_magic start ((L : Nat) : Int) INODE_MAGIC (by norm_num [INODE_MAGIC])]
    congr 1
    funext w
    exact decode_u32_bytes_unused start ((L : Nat) : Int) INODE_MAGIC (4 * w)
  · intro buf s o k hk
    have hsec : read_inode_disk
        (zeroFill (devWrite d sector
          (inode_disk_bytes ⟨start, (L : Int), INODE_MAGIC, fun _ => 0⟩) 0)
          start (bytes_to_sectors (L : Int))) sector
        = ⟨start, (L : Int), INODE_MAGIC, fun _ => 0⟩ := by
      unfold read_inode_disk
      rw [zeroFill_out _ _ _ _ hdisj, devWrite_inode_bytes]
      rw [decode_u32_bytes_start start ((L : Nat) : Int) INODE_MAGIC hstart]
      rw [decode_off_bytes_length start ((L : Nat) : Int) INODE_MAGIC (by omega) (by omega)]
      rw [decode_u32_bytes_magic start ((L : Nat) : Int) INODE_MAGIC
        (by norm_num [INODE_MAGIC])]
      congr 1
      funext w
      exact decode_u32_bytes_unused start ((L : Nat) : Int) INODE_MAGIC (4 * w)
    rw [hsec]
    unfold inode_read_at
    have hrs := inode_read_loop_spec (⟨start, (L : Int), INODE_MAGIC, fun _ => 0⟩ : inode_disk)
      (zeroFill (devWrite d sector
        (inode_disk_bytes ⟨start, (L : Int), INODE_MAGIC, fun _ => 0⟩) 0)
        start (bytes_to_sectors (L : Int))) hw s o 0 buf false
    rw [Nat.cast_zero] at hrs
    have hval := hrs.2 k hk
    rw [Nat.zero_add] at hval
    rw [hval]
    have hbs : bytes_to_sectors ((L : Nat) : Int) = (L + 511) / 512 := by
      rw [bytes_to_sectors_toNat ((L : Nat) : Int) (by omega), toNat_cast]
    have hok : o + k < L := by omega
    exact zeroFill_in _ _ _ _ _ (by omega)

/-- Witness for C2: creating a 1000-byte file at descriptor sector 5 with
the allocator granting sectors 10–11 succeeds, zero-fills the data
sectors, and the decoded descriptor carries length 1000. -/
theorem C2_witness :
    ∃ d' : Disk,
      inode_create (fun _ => some 10) true diskZero 5 (1000 : Int) = .ok (true, d') ∧
      d' 10 3 = 0 ∧ (read_inode_disk d' 5).length = (1000 : Int) := by
  obtain ⟨d', h1, h2, h3, h4, h5, h6, h7⟩ :=
    C2_create_success (fun _ => some 10) diskZero 5 1000 10 rfl (by decide) (by decide)
      (by decide) (by decide)
  exact ⟨d', h1, h5 0 (by decide) 3, by rw [h6]; norm_num⟩

/-- C3: `inode_create` fails and leaves the disk untouched when `calloc`
for the descriptor fails, and likewise when the free-map allocator
refuses the request: no byte of the descriptor sector (or anywhere else)
is written on the failure paths. -/
theorem C3_create_failure (alloc : Nat → Option Nat) (d : Disk) (sector L : Nat) :
    inode_create alloc false d sector (L : Int) = .ok (false, d) ∧
    (alloc (bytes_to_sectors (L : Int)) = none →
      inode_create alloc true d sector (L : Int) = .ok (false, d)) := by
  constructor
  · unfold inode_create
    rw [if_neg (show ¬((L : Int) < 0) by omega), if_neg (by simp)]
  · intro h
    unfold inode_create
    rw [if_neg (show ¬((L : Int) < 0) by omega), if_pos rfl]
    dsimp only
    rw [h]

/-- Witness for C3: with an always-refusing allocator (and with a failing
`calloc`), creating a 100-byte file at sector 5 fails and the all-zero
disk is returned unchanged. -/
theorem C3_witness :
    inode_create (fun _ => some 1) false diskZero 5 (100 : Int) = .ok (false, diskZero) ∧
    inode_create (fun _ => none) true diskZero 5 (100 : Int) = .ok (false, diskZero) :=
  ⟨(C3_create_failure (fun _ => some 1) diskZero 5 100).1,
   (C3_create_failure (fun _ => none) diskZero 5 100).2 rfl⟩

/-- Counterexample to C4 as stated: with file length 300 (file ends inside
the first sector) and a 300-byte write at offset 0, the write starts at
sector offset 0 and extends exactly to the end of the file-relevant data
in the sector, so the claim mandates a zero-filled scratch buffer; the
code instead reads the sector from disk (`Access.read 0` is in the trace)
and writes back the sector's pre-existing bytes beyond the file range
(byte 400 keeps its old value 7 instead of becoming 0), because its
condition compares the chunk with `sector_left`, not with the
file-relevant extent. -/
theorem C4_counterexample :
    Access.read 0 ∈ (inode_write_at ⟨0, (300 : Int), INODE_MAGIC, fun _ => 0⟩
      (fun _ _ => 7) zeroBuf ((300 : Nat) : Int) ((0 : Nat) : Int) true).2.2 ∧
    (inode_write_at ⟨0, (300 : Int), INODE_MAGIC, fun _ => 0⟩
      (fun _ _ => 7) zeroBuf ((300 : Nat) : Int) ((0 : Nat) : Int) true).2.1 0 400 = 7 ∧
    write_needs_read 0 300 512 = true := by
  have hσ : byte_to_sector ⟨0, (300 : Int), INODE_MAGIC, fun _ => 0⟩ ((0 : Nat) : Int) = 0 := by
    decide
  have hstep := inode_write_loop_step_bounce ⟨0, (300 : Int), INODE_MAGIC, fun _ => 0⟩
    (fun _ _ => 7) zeroBuf 300 0 0 false true 300 (by decide) (by decide) (by decide)
    (by decide) rfl
  rw [hσ] at hstep
  refine ⟨?_, ?_, by decide⟩
  · show Access.read 0 ∈ (inode_write_loop ⟨0, (300 : Int), INODE_MAGIC, fun _ => 0⟩
      (fun _ _ => 7) zeroBuf ((300 : Nat) : Int) ((0 : Nat) : Int) ((0 : Nat) : Int)
      false true).2.2
    rw [hstep, consTrace_22,
      inode_write_loop_exit _ _ _ _ _ _ _ _ (Or.inl (by decide))]
    decide
  · show (inode_write_loop ⟨0, (300 : Int), INODE_MAGIC, fun _ => 0⟩
      (fun _ _ => 7) zeroBuf ((300 : Nat) : Int) ((0 : Nat) : Int) ((0 : Nat) : Int)
      false true).2.1 0 400 = 7
    rw [hstep, consTrace_21,
      inode_write_loop_exit _ _ _ _ _ _ _ _ (Or.inl (by decide))]
    dsimp only
    rw [devWrite_self _ _ _ _ _ (by decide)]
    rw [copyRange_miss _ _ _ _ _ _ (by decide)]
    rfl

/-- C4 (amended): in every reachable partial-sector iteration of the
write loop the scratch buffer is filled by reading the target sector from
disk, after which the sub-range is overwritten and the whole sector
written back; the zero-fill (`memset`) alternative fires only when
`sector_ofs = 0` and the chunk reaches `sector_left` — that forces
`chunk_size = 512`, which is exactly the full-sector direct-write case,
so the zero-fill branch is never taken in a partial-sector iteration. -/
theorem C4_amended_partial_sector_reads :
    (∀ (o c : Nat), c ≤ 512 - o % 512 → ¬(o % 512 = 0 ∧ c = 512) →
      write_needs_read ((o % 512 : Nat) : Int) ((c : Nat) : Int)
        (512 - ((o % 512 : Nat) : Int)) = true) ∧
    (∀ (data : inode_disk) (d : Disk) (buf : Buf) (s o bw c : Nat) (hb : Bool),
      0 < s → ((o : Nat) : Int) < data.length →
      c = min s (min (data.length - (o : Int)).toNat (512 - o % 512)) →
      ¬(o % 512 = 0 ∧ c = 512) →
      inode_write_loop data d buf (s : Int) (o : Int) (bw : Int) hb true =
        consTrace [Access.read (byte_to_sector data (o : Int)),
                   Access.write (byte_to_sector data (o : Int))]
          (inode_write_loop data
            (devWrite d (byte_to_sector data (o : Int))
              (copyRange (devRead d (byte_to_sector data (o : Int))) (o % 512) buf bw c) 0)
            buf ((s - c : Nat) : Int) ((o + c : Nat) : Int) ((bw + c : Nat) : Int)
            true true)) :=
  ⟨fun o c h1 h2 => write_needs_read_true o c h1 h2,
   fun data d buf s o bw c hb hs ho hcdef hnf =>
     inode_write_loop_step_bounce data d buf s o bw hb true c hs ho hcdef hnf (by simp)⟩

/-- Witness for the amended C4: offset 0, chunk 300 in a sector (file
ends at byte 300) is a partial-sector case and the read-before-write
condition evaluates to true. -/
theorem C4_amended_witness :
    write_needs_read ((0 % 512 : Nat) : Int) ((300 : Nat) : Int)
      (512 - ((0 % 512 : Nat) : Int)) = true :=
  C4_amended_partial_sector_reads.1 0 300 (by decide) (by decide)

/-- Counterexample to C6 as stated: `inode_length` applied to a null
handle is not an assertion failure — the source has no `ASSERT` there and
simply dereferences the pointer (undefined behaviour). -/
theorem C6_counterexample :
    inode_length (inode_init diskZero) none = CResult.ub ∧
    inode_length (inode_init diskZero) none ≠ CResult.assertFail :=
  ⟨rfl, fun h => CResult.noConfusion h⟩

/-- C6 (amended): closing a null handle is a no-op that changes no state,
and removing a null handle is a fatal assertion failure; `inode_length`
on a null handle, however, is not asserted-against — it dereferences the
null handle without any check (undefined behaviour / crash, not a
controlled assertion). -/
theorem C6_null_handle_behaviour (st : FsState) :
    inode_close st none = st ∧
    inode_remove st none = CResult.assertFail ∧
    inode_length st none = CResult.ub :=
  ⟨rfl, rfl, rfl⟩

/-! ### Registry invariants and lemmas -/

lemma bump_open_cnt_sector (id : Nat) (j : inode) :
    (bump_open_cnt id j).sector = j.sector := by
  unfold bump_open_cnt
  split <;> rfl

lemma bump_open_cnt_id (id : Nat) (j : inode) : (bump_open_cnt id j).id = j.id := by
  unfold bump_open_cnt
  split <;> rfl

lemma mark_removed_sector (id : Nat) (j : inode) :
    (mark_removed id j).sector = j.sector := by
  unfold mark_removed
  split <;> rfl

lemma mark_removed_id (id : Nat) (j : inode) : (mark_removed id j).id = j.id := by
  unfold mark_removed
  split <;> rfl

lemma mark_removed_open_cnt (id : Nat) (j : inode) :
    (mark_removed id j).open_cnt = j.open_cnt := by
  unfold mark_removed
  split <;> rfl

lemma mark_removed_data (id : Nat) (j : inode) : (mark_removed id j).data = j.data := by
  unfold mark_removed
  split <;> rfl

lemma set_dir_inited_sector (id : Nat) (j : inode) :
    (set_dir_inited id j).sector = j.sector := by
  unfold set_dir_inited
  split <;> rfl

lemma set_dir_inited_id (id : Nat) (j : inode) : (set_dir_inited id j).id = j.id := by
  unfold set_dir_inited
  split <;> rfl

lemma set_dir_inited_open_cnt (id : Nat) (j : inode) :
    (set_dir_inited id j).open_cnt = j.open_cnt := by
  unfold set_dir_inited
  split <;> rfl

/-- Invariant of the open-inodes registry: handles have pairwise distinct
sectors (at most one handle per location) and pairwise distinct
identities, every registered handle has a positive reference count, and
all identities are below the freshness counter. -/
def RegistryInv (st : FsState) : Prop :=
  st.open_inodes.Pairwise (fun a b => a.sector ≠ b.sector ∧ a.id ≠ b.id) ∧
  (∀ i ∈ st.open_inodes, 1 ≤ i.open_cnt) ∧
  (∀ i ∈ st.open_inodes, i.id < st.next_id)

lemma mem_unique_id (l : List inode)
    (hpw : l.Pairwise (fun a b => a.sector ≠ b.sector ∧ a.id ≠ b.id))
    (i j : inode) (hi : i ∈ l) (hj : j ∈ l) (hid : i.id = j.id) : i = j := by
  induction l with
  | nil => cases hi
  | cons h t IH =>
    rcases List.pairwise_cons.mp hpw with ⟨hh, ht⟩
    rcases List.mem_cons.mp hi with rfl | hi'
    · rcases List.mem_cons.mp hj with rfl | hj'
      · rfl
      · exact absurd hid (hh j hj').2
    · rcases List.mem_cons.mp hj with rfl | hj'
      · exact absurd hid.symm (hh i hi').2
      · exact IH ht hi' hj'

lemma find?_sector_eq (l : List inode) (sector : Nat)
    (hpw : l.Pairwise (fun a b => a.sector ≠ b.sector ∧ a.id ≠ b.id))
    (i : inode) (hi : i ∈ l) (hs : i.sector = sector) :
    l.find? (fun j => j.sector == sector) = some i := by
  induction l with
  | nil => cases hi
  | cons h t IH =>
    rcases List.pairwise_cons.mp hpw with ⟨hh, ht⟩
    by_cases hhs : h.sector = sector
    · rcases List.mem_cons.mp hi with rfl | hi'
      · exact List.find?_cons_of_pos _ (by simp [hhs])
      · exact absurd (hhs.trans hs.symm) (hh i hi').1
    · rcases List.mem_cons.mp hi with rfl | hi'
      · exact absurd hs hhs
      · rw [List.find?_cons_of_neg _ (by simp [hhs])]
        exact IH ht hi'

lemma inv_map_update (st : FsState) (f : inode → inode)
    (hinv : RegistryInv st)
    (hsec : ∀ j, (f j).sector = j.sector)
    (hid : ∀ j, (f j).id = j.id)
    (hcnt : ∀ j ∈ st.open_inodes, 1 ≤ j.open_cnt → 1 ≤ (f j).open_cnt) :
    RegistryInv { st with open_inodes := st.open_inodes.map f } := by
  obtain ⟨hpw, hc, hid'⟩ := hinv
  refine ⟨?_, ?_, ?_⟩
  · rw [List.pairwise_map]
    exact hpw.imp (fun {a b} h => by rw [hsec, hsec, hid, hid]; exact h)
  · intro x hx
    rcases List.mem_map.mp hx with ⟨j, hj, rfl⟩
    exact hcnt j hj (hc j hj)
  · intro x hx
    rcases List.mem_map.mp hx with ⟨j, hj, rfl⟩
    rw [hid]
    exact hid' j hj

lemma bump_open_cnt_pos (id : Nat) (j : inode) (h : 1 ≤ j.open_cnt) :
    1 ≤ (bump_open_cnt id j).open_cnt := by
  unfold bump_open_cnt
  split
  · show 1 ≤ j.open_cnt + 1
    omega
  · exact h

lemma inode_open_inv (st : FsState) (sector : Nat) (m : Bool)
    (hinv : RegistryInv st) : RegistryInv (inode_open st sector m).1 := by
  unfold inode_open
  cases hfind : st.open_inodes.find? (fun i => i.sector == sector) with
  | some i =>
    exact inv_map_update st (bump_open_cnt i.id) hinv (bump_open_cnt_sector i.id)
      (bump_open_cnt_id i.id) (fun j _ hj => bump_open_cnt_pos i.id j hj)
  | none =>
    obtain ⟨hpw, hc, hids⟩ := hinv
    cases m with
    | false => exact ⟨hpw, hc, hids⟩
    | true =>
      refine ⟨?_, ?_, ?_⟩
      · refine List.pairwise_cons.mpr ⟨?_, hpw⟩
        intro j hj
        constructor
        · have := List.find?_eq_none.mp hfind j hj
          simp only [beq_iff_eq] at this
          exact fun hsec => this ((congrArg inode.sector rfl).symm.trans hsec.symm ▸ rfl)
        · intro hid
          exact absurd (hid ▸ hids j hj) (by show ¬ st.next_id < st.next_id; omega)
      · intro x hx
        rcases List.mem_cons.mp hx with rfl | hx'
        · show (1 : Int) ≤ 1
          omega
        · exact hc x hx'
      · intro x hx
        rcases List.mem_cons.mp hx with rfl | hx'
        · show st.next_id < st.next_id + 1
          omega
        · show x.id < st.next_id + 1
          have := hids x hx'
          omega

lemma inode_reopen_inv (st : FsState) (h : Option Nat)
    (hinv : RegistryInv st) : RegistryInv (inode_reopen st h) := by
  unfold inode_reopen
  cases h with
  | none => exact hinv
  | some id =>
    exact inv_map_update st (bump_open_cnt id) hinv (bump_open_cnt_sector id)
      (bump_open_cnt_id id) (fun j _ hj => bump_open_cnt_pos id j hj)

lemma inode_remove_inv (st : FsState) (id : Nat)
    (hinv : RegistryInv st) :
    RegistryInv { st with open_inodes := st.open_inodes.map (mark_removed id) } :=
  inv_map_update st (mark_removed id) hinv (mark_removed_sector id)
    (mark_removed_id id) (fun j _ hj => by rw [mark_removed_open_cnt]; exact hj)

lemma inode_dir_init_inv (st : FsState) (h : Option Nat)
    (hinv : RegistryInv st) : RegistryInv (inode_dir_init st h) := by
  unfold inode_dir_init
  cases h with
  | none => exact hinv
  | some id =>
    exact inv_map_update st (set_dir_inited id) hinv (set_dir_inited_sector id)
      (set_dir_inited_id id) (fun j _ hj => by rw [set_dir_inited_open_cnt]; exact hj)

lemma inode_close_inv (st : FsState) (h : Option Nat)
    (hinv : RegistryInv st) : RegistryInv (inode_close st h) := by
  cases h with
  | none => exact hinv
  | some id =>
    unfold inode_close
    dsimp only
    cases hfind : st.open_inodes.find? (fun i => i.id == id) with
    | none => exact hinv
    | some i =>
      have hi_mem := List.mem_of_find?_eq_some hfind
      have hi_id : i.id = id := by
        have := List.find?_some hfind
        simpa using this
      dsimp only
      split
      · obtain ⟨hpw, hc, hids⟩ := hinv
        refine ⟨?_, ?_, ?_⟩
        · exact hpw.sublist (List.filter_sublist st.open_inodes)
        · intro x hx
          exact hc x (List.mem_of_mem_filter hx)
        · intro x hx
          exact hids x (List.mem_of_mem_filter hx)
      · rename_i hcnt0
        refine inv_map_update st
          (fun j => if j.id = id then { j with open_cnt := j.open_cnt - 1 } else j) hinv
          (fun j => by dsimp only; split <;> rfl)
          (fun j => by dsimp only; split <;> rfl) ?_
        intro j hj hj1
        dsimp only
        by_cases hjid : j.id = id
        · have hji : j = i := mem_unique_id st.open_inodes hinv.1 j i hj hi_mem
            (hjid.trans hi_id.symm)
          rw [if_pos hjid]
          show 1 ≤ j.open_cnt - 1
          rw [hji]
          have h1 := hinv.2.1 i hi_mem
          omega
        · rw [if_neg hjid]
          exact hj1

lemma applyOp_inv (st : FsState) (op : Op)
    (hinv : RegistryInv st) : RegistryInv (applyOp st op) := by
  cases op with
  | op_open s m => exact inode_open_inv st s m hinv
  | op_reopen h => exact inode_reopen_inv st h hinv
  | op_close h => exact inode_close_inv st h hinv
  | op_remove h =>
    cases h with
    | none => exact hinv
    | some id => exact inode_remove_inv st id hinv
  | op_dir_init h => exact inode_dir_init_inv st h hinv

lemma applyOps_inv (st : FsState) (ops : List Op)
    (hinv : RegistryInv st) : RegistryInv (applyOps st ops) := by
  induction ops generalizing st with
  | nil => exact hinv
  | cons op ops IH => exact IH (applyOp st op) (applyOp_inv st op hinv)

lemma inode_init_inv (d : Disk) : RegistryInv (inode_init d) :=
  ⟨List.Pairwise.nil, fun _ hi => absurd hi (List.not_mem_nil _), fun _ hi =>
    absurd hi (List.not_mem_nil _)⟩

lemma inode_open_found (st : FsState) (sector : Nat) (m : Bool)
    (hpw : st.open_inodes.Pairwise (fun a b => a.sector ≠ b.sector ∧ a.id ≠ b.id))
    (i : inode) (hi : i ∈ st.open_inodes) (hs : i.sector = sector) :
    inode_open st sector m =
      ({ st with open_inodes := st.open_inodes.map (bump_open_cnt i.id) }, some i.id) := by
  unfold inode_open
  rw [find?_sector_eq st.open_inodes sector hpw i hi hs]

lemma inode_open_new (st : FsState) (sector : Nat)
    (hnone : ∀ i ∈ st.open_inodes, i.sector ≠ sector) :
    inode_open st sector true =
      ({ st with open_inodes := fresh_inode st sector :: st.open_inodes,
                 next_id := st.next_id + 1 }, some st.next_id) := by
  unfold inode_open
  rw [List.find?_eq_none.mpr (fun i hi => by simpa using hnone i hi)]
  rfl

/-- C8: after any sequence of open/reopen/close/remove operations from
the initial state, the registry holds at most one handle per location
(pairwise distinct sectors) and every registered handle has reference
count at least 1; opening an already-open location returns that very
handle with its reference count incremented and inserts nothing, while
opening an unopened location (with `malloc` succeeding) inserts exactly
one fresh handle with reference count 1 and returns it. -/
theorem C8_registry_dedup (d : Disk) (ops : List Op) :
    ((applyOps (inode_init d) ops).open_inodes.Pairwise
      (fun a b => a.sector ≠ b.sector)) ∧
    (∀ i ∈ (applyOps (inode_init d) ops).open_inodes, 1 ≤ i.open_cnt) ∧
    (∀ (sector : Nat) (m : Bool) (i : inode),
      i ∈ (applyOps (inode_init d) ops).open_inodes → i.sector = sector →
      inode_open (applyOps (inode_init d) ops) sector m =
        ({ applyOps (inode_init d) ops with
           open_inodes :=
             (applyOps (inode_init d) ops).open_inodes.map (bump_open_cnt i.id) },
         some i.id) ∧
      (bump_open_cnt i.id i).open_cnt = i.open_cnt + 1) ∧
    (∀ sector : Nat,
      (∀ i ∈ (applyOps (inode_init d) ops).open_inodes, i.sector ≠ sector) →
      inode_open (applyOps (inode_init d) ops) sector true =
        ({ applyOps (inode_init d) ops with
           open_inodes := fresh_inode (applyOps (inode_init d) ops) sector ::
             (applyOps (inode_init d) ops).open_inodes,
           next_id := (applyOps (inode_init d) ops).next_id + 1 },
         some (applyOps (inode_init d) ops).next_id) ∧
      (fresh_inode (applyOps (inode_init d) ops) sector).open_cnt = 1) := by
  have hinv := applyOps_inv (inode_init d) ops (inode_init_inv d)
  refine ⟨hinv.1.imp (fun h => h.1), hinv.2.1, ?_, ?_⟩
  · intro sector m i hi hs
    refine ⟨inode_open_found _ sector m hinv.1 i hi hs, ?_⟩
    unfold bump_open_cnt
    rw [if_pos rfl]
  · intro sector hnone
    exact ⟨inode_open_new _ sector hnone, rfl⟩

/-- Witness for C8: opening sector 5 twice from the initial state yields
the same handle (identity 0) and a final reference count of 2; the second
open's result is derived by applying the theorem to the existing handle. -/
theorem C8_witness :
    (inode_open (applyOps (inode_init diskZero) [Op.op_open 5 true]) 5 true).2 = some 0 ∧
    (applyOps (inode_init diskZero) [Op.op_open 5 true, Op.op_open 5 true]).open_inodes.map
      (fun i => (i.id, i.sector, i.open_cnt)) = [(0, 5, 2)] := by
  have h := C8_registry_dedup diskZero [Op.op_open 5 true]
  have hmem : fresh_inode (inode_init diskZero) 5 ∈
      (applyOps (inode_init diskZero) [Op.op_open 5 true]).open_inodes :=
    show fresh_inode (inode_init diskZero) 5 ∈ [fresh_inode (inode_init diskZero) 5] from
      List.mem_singleton.mpr rfl
  have h3 := (h.2.2.1 5 true (fresh_inode (inode_init diskZero) 5) hmem rfl).1
  constructor
  · rw [h3]
    rfl
  · rfl

lemma mark_removed_idem (id : Nat) (j : inode) :
    mark_removed id (mark_removed id j) = mark_removed id j := by
  unfold mark_removed
  by_cases h : j.id = id
  · rw [if_pos h]
    rw [if_pos (show ({ j with removed := true } : inode).id = id from h)]
  · rw [if_neg h, if_neg h]

/-- C9: `inode_remove` on a valid handle sets only the pending-delete
flag — the disk, the released-sector log, the freshness counter and the
registry structure are untouched, and every handle keeps its identity,
sector, reference count and cached data (so the file stays fully readable
and writable); removing twice equals removing once.  Storage is handed to
`free_map_release` exactly by the close that drops the last reference of
a removed handle: a close with references remaining, or of an unremoved
handle, releases nothing. -/
theorem C9_remove_lazy (st : FsState) (id : Nat) :
    (∃ st' : FsState, inode_remove st (some id) = .ok st' ∧
      st'.disk = st.disk ∧ st'.released = st.released ∧ st'.next_id = st.next_id ∧
      st'.open_inodes = st.open_inodes.map (mark_removed id) ∧
      (∀ j ∈ st.open_inodes, (mark_removed id j).id = j.id ∧
        (mark_removed id j).sector = j.sector ∧
        (mark_removed id j).open_cnt = j.open_cnt ∧
        (mark_removed id j).data = j.data ∧
        (j.id = id → (mark_removed id j).removed = true) ∧
        (j.id ≠ id → (mark_removed id j).removed = j.removed)) ∧
      inode_remove st' (some id) = .ok st') ∧
    (∀ i : inode, st.open_inodes.find? (fun j => j.id == id) = some i →
      (i.removed = true → i.open_cnt = 1 →
        (inode_close st (some id)).released =
          st.released ++ [(i.sector, 1), (i.data.start, bytes_to_sectors i.data.length)] ∧
        (inode_close st (some id)).open_inodes =
          st.open_inodes.filter (fun j => j.id ≠ id)) ∧
      (i.open_cnt ≠ 1 → (inode_close st (some id)).released = st.released) ∧
      (i.removed = false → (inode_close st (some id)).released = st.released)) := by
  constructor
  · refine ⟨{ st with open_inodes := st.open_inodes.map (mark_removed id) },
      rfl, rfl, rfl, rfl, rfl, ?_, ?_⟩
    · intro j hj
      refine ⟨mark_removed_id id j, mark_removed_sector id j, mark_removed_open_cnt id j,
        mark_removed_data id j, ?_, ?_⟩
      · intro h
        unfold mark_removed
        rw [if_pos h]
      · intro h
        unfold mark_removed
        rw [if_neg h]
    · have hlist : (st.open_inodes.map (mark_removed id)).map (mark_removed id) =
          st.open_inodes.map (mark_removed id) := by
        rw [List.map_map]
        rw [show mark_removed id ∘ mark_removed id = mark_removed id from
          funext (mark_removed_idem id)]
      exact congrArg (fun l => CResult.ok { st with open_inodes := l }) hlist
  · intro i hfind
    have hcl : inode_close st (some id) =
        (if i.open_cnt - 1 = 0 then
          { st with open_inodes := st.open_inodes.filter (fun j => j.id ≠ id),
                    released := release_on_close st i }
        else
          { st with open_inodes := st.open_inodes.map (fun j => if j.id = id then { j with open_cnt := j.open_cnt - 1 } else j) }) := by
      unfold inode_close
      dsimp only
      rw [hfind]
    refine ⟨?_, ?_, ?_⟩
    · intro hrem hcnt
      rw [hcl, if_pos (by omega)]
      constructor
      · show release_on_close st i = _
        unfold release_on_close
        rw [if_pos hrem]
      · rfl
    · intro hcnt
      rw [hcl, if_neg (by omega)]
    · intro hrem
      by_cases hcnt : i.open_cnt - 1 = 0
      · rw [hcl, if_pos hcnt]
        show release_on_close st i = st.released
        unfold release_on_close
        rw [if_neg (by rw [hrem]; exact Bool.false_ne_true)]
      · rw [hcl, if_neg hcnt]

/-- Witness for C9: open sector 5, remove the handle, close it — the
close of the last (only) opener releases the descriptor sector 5 and the
(empty, since the decoded length is 0) data region starting at sector 0. -/
theorem C9_witness :
    (inode_close (applyOps (inode_init diskZero)
      [Op.op_open 5 true, Op.op_remove (some 0)]) (some 0)).released = [(5, 1), (0, 0)] := by
  have h := C9_remove_lazy
    (applyOps (inode_init diskZero) [Op.op_open 5 true, Op.op_remove (some 0)]) 0
  have hfind : (applyOps (inode_init diskZero)
      [Op.op_open 5 true, Op.op_remove (some 0)]).open_inodes.find?
      (fun j => j.id == 0) = some (mark_removed 0 (fresh_inode (inode_init diskZero) 5)) :=
    rfl
  have h2 := (h.2 _ hfind).1 rfl rfl
  rw [h2.1]
  rfl

/-- Counterexample to C7 as stated: the handle returned by the first open
of sector 5 is handed to the caller with its handle-state lock
initialised but its directory-serialisation lock NOT initialised by this
layer — `inode_open` runs `lock_init` only on `inode_lock`, never on
`dir_lock`. -/
theorem C7_counterexample :
    ((inode_open (inode_init diskZero) 5 true).1.open_inodes.map
      (fun i => (i.id, i.inode_lock_inited, i.dir_lock_inited))) = [(0, true, false)] ∧
    (inode_open (inode_init diskZero) 5 true).2 = some 0 :=
  ⟨rfl, rfl⟩

/-- C7 (amended): `inode_open` initialises only the handle-state lock of
a freshly created handle; the directory-serialisation lock stays
uninitialised by this layer until a collaborator explicitly calls
`inode_dir_init` on the (non-null) handle, which sets it (once) and
changes nothing else; reusing a handle (the reference-count bump) leaves
the flag unchanged, and `inode_dir_init` on a null handle is a no-op. -/
theorem C7_dir_lock_init (st : FsState) (sector : Nat) :
    (fresh_inode st sector).inode_lock_inited = true ∧
    (fresh_inode st sector).dir_lock_inited = false ∧
    inode_dir_init st none = st ∧
    (∀ id : Nat, inode_dir_init st (some id) =
      { st with open_inodes := st.open_inodes.map (set_dir_inited id) }) ∧
    (∀ (id : Nat) (j : inode), (set_dir_inited id j).id = j.id ∧
      (set_dir_inited id j).sector = j.sector ∧
      (set_dir_inited id j).open_cnt = j.open_cnt ∧
      (set_dir_inited id j).data = j.data ∧
      (set_dir_inited id j).removed = j.removed ∧
      (j.id = id → (set_dir_inited id j).dir_lock_inited = true) ∧
      (j.id ≠ id → (set_dir_inited id j).dir_lock_inited = j.dir_lock_inited)) ∧
    (∀ (id : Nat) (j : inode),
      (bump_open_cnt id j).dir_lock_inited = j.dir_lock_inited) := by
  refine ⟨rfl, rfl, rfl, fun id => rfl, ?_, ?_⟩
  · intro id j
    refine ⟨set_dir_inited_id id j, set_dir_inited_sector id j, set_dir_inited_open_cnt id j,
      ?_, ?_, ?_, ?_⟩
    · unfold set_dir_inited
      split <;> rfl
    · unfold set_dir_inited
      split <;> rfl
    · intro h
      unfold set_dir_inited
      rw [if_pos h]
    · intro h
      unfold set_dir_inited
      rw [if_neg h]
  · intro id j
    unfold bump_open_cnt
    split <;> rfl

/-- Witness for the amended C7: after opening sector 5 and calling
`inode_dir_init` on the returned handle, the dir lock is initialised. -/
theorem C7_witness :
    (set_dir_inited 0 (fresh_inode (inode_init diskZero) 5)).dir_lock_inited = true :=
  (C7_dir_lock_init (inode_init diskZero) 5).2.2.2.2.1 0
    (fresh_inode (inode_init diskZero) 5) |>.2.2.2.2.2.1 rfl
